import Mathlib

/-!
# Verification of the Beatsmith similar-track / mood-playlist pipeline

A shallow embedding, in Lean 4, of the core recommendation pipeline of the
Beatsmith music-discovery assistant (`src/tools.ts`): the track-name
normalizer, the candidate aggregation of `findSimilarTracks` (seed-artist,
related-artist, genre-search and Last.fm sources with normalized-name
deduplication), its provenance/heuristic scoring and diversity selection, and
the accumulation / playlist-creation flow of `generatePlaylistByMood`.

Strings are modelled as Lean `String`s (lists of characters); JavaScript
`toLowerCase` is modelled on the ASCII range (identity elsewhere), and the
two strip regexes of `normalizeTrackNameForComparison` are modelled by their
leftmost-match semantics.  Last.fm match scores (JS numbers in [0,1]) are
modelled as rationals.  External calls are modelled by environments that
carry the already-fetched payloads; calls that the code wraps in its own
try/catch appear post-recovery, calls whose exceptions reach the tool-level
catch are modelled in `Except`.
-/

namespace Beatsmith

/-! ## Name normalizer (`normalizeTrackNameForComparison`) -/

/-- ASCII lower-casing of one character, modelling JS `toLowerCase` on the
code points the markers and tests use (identity outside `A`-`Z`). -/
def lowerChar (c : Char) : Char :=
  if 65 ≤ c.toNat ∧ c.toNat ≤ 90 then Char.ofNat (c.toNat + 32) else c

/-- JS regex `\s` / `trim` whitespace, restricted to the ASCII space class. -/
def isJsWs (c : Char) : Bool :=
  c = ' ' ∨ c = '\t' ∨ c = '\n' ∨ c = '\r' ∨ c = '\x0b' ∨ c = '\x0c'

/-- The separator class `[-\(]` of both strip regexes. -/
def isSep (c : Char) : Bool :=
  c = '-' ∨ c = '('

/-- Marker words of the first strip regex
`/\s*[-\(](with|feat|ft\.|slowed|sped|remix|version|extended|acoustic|live|reverb|reprise|instrumental).*$/i`. -/
def stripMarkers1 : List (List Char) :=
  ["with".data, "feat".data, "ft.".data, "slowed".data, "sped".data,
   "remix".data, "version".data, "extended".data, "acoustic".data,
   "live".data, "reverb".data, "reprise".data, "instrumental".data]

/-- Marker words of the second strip regex
`/\s*[-\(](remix|version|extended|acoustic|live|reverb|reprise|instrumental).*$/i`. -/
def stripMarkers2 : List (List Char) :=
  ["remix".data, "version".data, "extended".data, "acoustic".data,
   "live".data, "reverb".data, "reprise".data, "instrumental".data]

/-- JS regex line terminators (ASCII): `.` never matches them and, without
the `m` flag, `$` asserts only the very end of the input. -/
def isLineTerm (c : Char) : Bool :=
  c = '\n' ∨ c = '\r'

/-- Can the regex complete a match here: some marker word occurs literally
at the head of `cs` (no word boundary, so a marker matches as a mere
*starting piece* of the following text) *and* the rest of the input after
that marker is free of line terminators — otherwise `.*$` cannot reach the
end of the input and this alternative fails. -/
def markerHit (ms : List (List Char)) (cs : List Char) : Bool :=
  ms.any (fun m => m.isPrefixOf cs && (cs.drop m.length).all (fun c => !(isLineTerm c)))

/-- Scan for the leftmost separator at which the regex can complete a match
(separator immediately followed by a marker word whose remainder runs
terminator-free to the end); return the text before it (`some prefixPart`),
or `none` when the regex does not match.  A separator+marker whose
remainder contains a line terminator is no match — the engine moves on to
later separators. -/
def stripScan (ms : List (List Char)) : List Char → Option (List Char)
  | [] => none
  | c :: rest =>
    if isSep c ∧ markerHit ms rest then some []
    else (stripScan ms rest).map (c :: ·)

/-- No line terminator occurs in the text (true of any one-line title). -/
def noLT (cs : List Char) : Prop :=
  ∀ c ∈ cs, isLineTerm c = false

/-- Remove trailing JS whitespace. -/
def rtrimWs (cs : List Char) : List Char :=
  (cs.reverse.dropWhile isJsWs).reverse

/-- Remove leading JS whitespace. -/
def ltrimWs (cs : List Char) : List Char :=
  cs.dropWhile isJsWs

/-- JS `String.prototype.trim`. -/
def trimWs (cs : List Char) : List Char :=
  rtrimWs (ltrimWs cs)

/-- One application of `.replace(/\s*[-\(](markers).*$/i, "")`: if the scan
finds a separator+marker, keep the text before it and also drop the `\s*`
run that the greedy leftmost match absorbs; otherwise leave the input. -/
def stripPattern (ms : List (List Char)) (cs : List Char) : List Char :=
  match stripScan ms cs with
  | none => cs
  | some p => rtrimWs p

/-- `normalizeTrackNameForComparison` from `src/tools.ts`:
lower-case, strip the broad marker pattern, strip the narrow marker pattern,
trim. -/
def normalizeTrackNameForComparison (name : String) : String :=
  String.mk (trimWs (stripPattern stripMarkers2
    (stripPattern stripMarkers1 (name.data.map lowerChar))))

/-! ## Data model of the `findSimilarTracks` pipeline -/

/-- A Spotify track as the pipeline consumes it: catalog id, display name,
artist names in order (`artists.map (·.name)` of the JSON payload) and the
playable URI.  (`external_urls` is carried along in the code but used only
for message formatting; it is omitted here.) -/
structure Track where
  id : String
  name : String
  artists : List String
  uri : String
deriving Repr, DecidableEq

/-- Provenance tag of a candidate (the `source` field of the candidate
records built in `findSimilarTracks`). -/
inductive Source where
  | seed_artist
  | related_artist
  | genre_search
  | lastfm
deriving Repr, DecidableEq

/-- One entry of `candidateTracks`: a track plus the generated metadata text
and the provenance tag. -/
structure Candidate where
  id : String
  name : String
  artists : List String
  uri : String
  metadata : String
  source : Source
deriving Repr, DecidableEq

/-- ASCII lower-casing of a whole string (JS `toLowerCase`). -/
def toLowerStr (s : String) : String :=
  String.mk (s.data.map lowerChar)

/-- `createTrackMetadataText` from `src/tools.ts`.  `genres.slice(0,3)
.join(", ") || "popular music"` falls back exactly when the joined string is
empty, and `mood || "contemporary"` exactly when `mood` is empty. -/
def createTrackMetadataText (trackName artistName : String)
    (genres : List String) (mood : String) : String :=
  let joined := String.intercalate ", " (genres.take 3)
  let genreContext := if joined = "" then "popular music" else joined
  let moodText := if mood = "" then "contemporary" else mood
  "Song: " ++ trackName ++ " by " ++ artistName ++ ". Genre: " ++ genreContext ++
    ". Musical mood and feel: " ++ moodText ++
    ". This track has emotional depth, rhythmic qualities, and sonic characteristics that create a specific listening experience."

/-- The candidate record pushed onto `candidateTracks` for `track` with the
given descriptor and provenance (`track.artists[0]?.name || ""` picks the
primary artist name for the metadata text). -/
def mkCandidate (t : Track) (descriptor : String) (src : Source) : Candidate :=
  { id := t.id, name := t.name, artists := t.artists, uri := t.uri,
    metadata := createTrackMetadataText t.name (t.artists.headD "") [] descriptor,
    source := src }

/-- A `{name, artist, match}` triple returned by `getLastFmSimilarTracks`.
The 0-1 match score is modelled as a rational. -/
structure LfmEntry where
  name : String
  artist : String
  matchScore : ℚ
deriving Repr, DecidableEq

/-- The aggregation state of step 3 of `findSimilarTracks`: the
`seenNormalizedNames` set (as a list) and the `candidateTracks` array. -/
structure AggState where
  seen : List String
  cands : List Candidate
deriving Repr, DecidableEq

/-- The normalized-name key of a candidate. -/
def normKey (c : Candidate) : String :=
  normalizeTrackNameForComparison c.name

/-! ### The four candidate sources (step 3a-3d)

Each step function is the body of the corresponding `for` loop in
`findSimilarTracks`; each stage folds it over the already-fetched payload.
`break`/`continue`-free loops translate directly to `foldl`. -/

/-- Step 3a loop body (seed-artist top tracks): skip the seed track itself by
id, then normalized-name dedup, then push with tag `seed_artist`. -/
def seedArtistStep (seedId seedNorm : String) (s : AggState) (t : Track) : AggState :=
  if t.id = seedId then s
  else
    let n := normalizeTrackNameForComparison t.name
    if n = seedNorm ∨ n ∈ s.seen then s
    else { seen := n :: s.seen,
           cands := s.cands ++ [mkCandidate t "similar emotional and rhythmic feel" .seed_artist] }

/-- Step 3a stage: only the first 4 seed-artist top tracks are considered. -/
def addSeedArtistTracks (seedId seedNorm : String) (s : AggState)
    (tracks : List Track) : AggState :=
  (tracks.take 4).foldl (seedArtistStep seedId seedNorm) s

/-- Step 3b loop body (related-artist tracks): normalized-name dedup, then
push with tag `related_artist`.  (The album-fetch fallback path of 3b runs
the identical dedup-and-push body over `topTracks.slice(0,6)` instead of
`allRelatedTracks.slice(0,8)`; the per-artist track list supplied by the
environment is whichever list the code ended up iterating.) -/
def relatedStep (seedNorm : String) (s : AggState) (t : Track) : AggState :=
  let n := normalizeTrackNameForComparison t.name
  if n = seedNorm ∨ n ∈ s.seen then s
  else { seen := n :: s.seen,
         cands := s.cands ++ [mkCandidate t "similar emotional and rhythmic feel" .related_artist] }

/-- Step 3b stage: at most 5 related artists (`relatedArtists.slice(0,5)`),
at most 8 tracks each (`allRelatedTracks.slice(0,8)`). -/
def addRelatedTracks (seedNorm : String) (s : AggState)
    (tracksLists : List (List Track)) : AggState :=
  (tracksLists.take 5).foldl
    (fun s tl => (tl.take 8).foldl (relatedStep seedNorm) s) s

/-- Step 3c loop body (genre/mood search hits): skip tracks by the seed
artist, normalized-name dedup — note that the key is recorded as seen
*before* the id-duplicate check — then push with tag `genre_search` unless
the id is already in the pool. -/
def genreStep (seedArtistName seedNorm : String) (s : AggState) (t : Track) : AggState :=
  if t.artists.any (· = seedArtistName) then s
  else
    let n := normalizeTrackNameForComparison t.name
    if n = seedNorm ∨ n ∈ s.seen then s
    else
      let s1 : AggState := { seen := n :: s.seen, cands := s.cands }
      if s1.cands.any (·.id = t.id) then s1
      else { s1 with
             cands := s1.cands ++ [mkCandidate t "similar emotional and rhythmic feel" .genre_search] }

/-- Step 3c stage: at most `Math.min(3, dynamicSearchTerms.length)` searches
are issued (the term list always has at least 3 entries, so exactly the
first 3 result pages are consumed). -/
def addGenreTracks (seedArtistName seedNorm : String) (s : AggState)
    (results : List (List Track)) : AggState :=
  (results.take 3).foldl
    (fun s items => items.foldl (genreStep seedArtistName seedNorm) s) s

/-- Step 3d loop body (Last.fm similar tracks): a result is skipped when its
match score is below 0.15 *and* more than 20 candidates are already
gathered; otherwise its Spotify re-resolution (`none` when the catalog
search failed, returned no items, or threw — all silently skipped) goes
through normalized-name dedup (again recording the key before the
id-duplicate check) and is pushed with tag `lastfm`. -/
def lastFmStep (seedNorm : String) (s : AggState)
    (er : LfmEntry × Option Track) : AggState :=
  if er.1.matchScore < mkRat 15 100 ∧ s.cands.length > 20 then s
  else
    match er.2 with
    | none => s
    | some t =>
      let n := normalizeTrackNameForComparison t.name
      if n = seedNorm ∨ n ∈ s.seen then s
      else
        let s1 : AggState := { seen := n :: s.seen, cands := s.cands }
        if s1.cands.any (·.id = t.id) then s1
        else { s1 with
               cands := s1.cands ++ [mkCandidate t "similar vibe and audience" .lastfm] }

/-- Step 3d stage. -/
def addLastFmTracks (seedNorm : String) (s : AggState)
    (results : List (LfmEntry × Option Track)) : AggState :=
  results.foldl (lastFmStep seedNorm) s

/-- Everything `findSimilarTracks` has fetched by the end of step 3, after
the per-call try/catch recovery (a failed fetch contributes an empty
list). -/
structure SimEnv where
  seedTrack : Track
  /-- `relatedArtists.slice(0,5)` — the related artists' names. -/
  relatedArtists : List String
  /-- genres of the seed artist (empty when the artist lookup failed). -/
  seedArtistGenres : List String
  seedArtistTopTracks : List Track
  relatedTracksLists : List (List Track)
  genreSearchResults : List (List Track)
  lastFmResults : List (LfmEntry × Option Track)
  excludeIds : List String
  limit : ℕ
deriving Repr, DecidableEq

/-- `seedArtist.name` (`seedTrack.artists[0]`; the pipeline only runs when
the seed has at least one artist, otherwise the member access throws into
the tool-level catch). -/
def SimEnv.seedArtistName (env : SimEnv) : String :=
  env.seedTrack.artists.headD ""

/-- The seed's normalized-name key. -/
def SimEnv.seedNorm (env : SimEnv) : String :=
  normalizeTrackNameForComparison env.seedTrack.name

/-- Step 3 in full: the aggregation state after all four sources ran. -/
def aggFinalState (env : SimEnv) : AggState :=
  let s0 : AggState := ⟨[], []⟩
  let s1 := addSeedArtistTracks env.seedTrack.id env.seedNorm s0 env.seedArtistTopTracks
  let s2 := addRelatedTracks env.seedNorm s1 env.relatedTracksLists
  let s3 := addGenreTracks env.seedArtistName env.seedNorm s2 env.genreSearchResults
  addLastFmTracks env.seedNorm s3 env.lastFmResults

/-- The aggregated, deduplicated `candidateTracks` pool. -/
def candidatePool (env : SimEnv) : List Candidate :=
  (aggFinalState env).cands

/-! ## Scoring and ranking (step 5) -/

/-- JS `String.prototype.includes` on character lists. -/
def hasSubstr (l pat : List Char) : Bool :=
  l.tails.any (fun t => pat.isPrefixOf t)

/-- JS `String.prototype.includes`. -/
def strIncludes (s pat : String) : Bool :=
  hasSubstr s.data pat.data

/-- One element of `scoredTracks`: the candidate object together with its
score and the two artist-relationship flags. -/
structure Scored where
  track : Candidate
  score : ℤ
  isSameArtist : Bool
  isRelatedArtist : Bool
deriving Repr, DecidableEq

/-- The seed metadata text used as the comparison side of the keyword
heuristic (`seedArtistGenres.join(", ") || "indie pop"`). -/
def SimEnv.seedMetadata (env : SimEnv) : String :=
  let joined := String.intercalate ", " env.seedArtistGenres
  let seedTrackGenres := if joined = "" then "indie pop" else joined
  createTrackMetadataText env.seedTrack.name env.seedArtistName
    env.seedArtistGenres (seedTrackGenres ++ " similar emotional feel")

/-- The scoring map of `findSimilarTracks` step 5: +6 when some artist of the
candidate is the seed artist, +8 when some artist is a related artist, +3
per shared descriptor keyword (`romantic`/`chill`/`emotional`), and +15 when
the provenance tag is `lastfm`.  Note that the provenance tag enters the
score *only* through the `lastfm` bonus. -/
def scoreCandidate (seedArtistName : String) (relatedArtists : List String)
    (seedMetadata : String) (c : Candidate) : Scored :=
  let isSameArtist := c.artists.any (· = seedArtistName)
  let isRelatedArtist := relatedArtists.any (fun ra => c.artists.any (fun ta => ta = ra))
  let s1 : ℤ := if isSameArtist then 0 + 6 else 0
  let s2 := if isRelatedArtist then s1 + 8 else s1
  let trackText := toLowerStr c.metadata
  let seedText := toLowerStr seedMetadata
  let s3 := if strIncludes trackText "romantic" ∧ strIncludes seedText "romantic"
    then s2 + 3 else s2
  let s4 := if strIncludes trackText "chill" ∧ strIncludes seedText "chill"
    then s3 + 3 else s3
  let s5 := if strIncludes trackText "emotional" ∧ strIncludes seedText "emotional"
    then s4 + 3 else s4
  let s6 := if c.source = .lastfm then s5 + 15 else s5
  { track := c, score := s6, isSameArtist := isSameArtist,
    isRelatedArtist := isRelatedArtist }

/-- The step-5 pre-score filter: drop excluded ids and any remix/variant of
the seed (same normalized key). -/
def candidateFilter (env : SimEnv) (c : Candidate) : Bool :=
  if env.excludeIds.contains c.id then false
  else if normalizeTrackNameForComparison c.name = env.seedNorm then false
  else true

/-- `scoredTracks`: filter, score, and sort descending by score
(`.sort((a, b) => b.score - a.score)`; JS sort is stable, as is
`mergeSort`). -/
def scoredTracks (env : SimEnv) : List Scored :=
  (((candidatePool env).filter (candidateFilter env)).map
      (scoreCandidate env.seedArtistName env.relatedArtists env.seedMetadata)).mergeSort
    (fun a b => b.score ≤ a.score)

/-! ## Diversity selection -/

/-- `maxSameArtistTracks = 2`. -/
def maxSameArtistTracks : ℕ := 2

/-- `maxTracksPerArtist = 1`. -/
def maxTracksPerArtist : ℕ := 1

/-- `Math.max(5, Math.floor(limit * 0.6))` (exact rational arithmetic in
place of double rounding). -/
def minRelatedArtistTracks (lim : ℕ) : ℕ := max 5 (lim * 6 / 10)

/-- `Math.max(3, Math.floor(limit * 0.3))`. -/
def minGenreSearchTracks (lim : ℕ) : ℕ := max 3 (lim * 3 / 10)

/-- `track.artists[0]?.name || ""`. -/
def primaryArtist (c : Candidate) : String :=
  c.artists.headD ""

/-- `candidateTracks.find(ct => ct.id === id)?.source`. -/
def sourceOf (cands : List Candidate) (id : String) : Option Source :=
  (cands.find? (fun ct => ct.id = id)).map (·.source)

/-- The selection state: the `artistCount` map (`Map.set` prepends, `get`
takes the first hit), the `sameArtistTotal` counter and the `finalTracks`
output array. -/
structure SelState where
  artistCount : List (String × ℕ)
  sameArtistTotal : ℕ
  finalTracks : List Candidate
deriving Repr, DecidableEq

/-- `artistCount.get(k) || 0`. -/
def countOf (m : List (String × ℕ)) (k : String) : ℕ :=
  match m.find? (fun p => p.1 = k) with
  | some p => p.2
  | none => 0

/-- `artistCount.set(k, v)`. -/
def setCount (m : List (String × ℕ)) (k : String) (v : ℕ) : List (String × ℕ) :=
  (k, v) :: m

/-- Selection pass 1 body (Last.fm tracks).  A `break` on a condition that
only ever becomes true and stays true (the output only grows) is modelled by
the equivalent guard that skips every remaining iteration. -/
def lastFmSelStep (seedArtistName : String) (lim : ℕ) (s : SelState) (st : Scored) :
    SelState :=
  if s.finalTracks.length ≥ lim then s
  else
    let artistKey := primaryArtist st.track
    let cnt := countOf s.artistCount artistKey
    if ¬ s.finalTracks.any (·.id = st.track.id) then
      if artistKey = seedArtistName ∨ cnt ≥ maxTracksPerArtist then s
      else { s with artistCount := setCount s.artistCount artistKey (cnt + 1),
                    finalTracks := s.finalTracks ++ [st.track] }
    else s

/-- Selection pass 2 body (related-artist tracks). -/
def relatedSelStep (seedArtistName : String) (lim : ℕ) (s : SelState) (st : Scored) :
    SelState :=
  if s.finalTracks.length ≥ lim then s
  else
    let artistKey := primaryArtist st.track
    let cnt := countOf s.artistCount artistKey
    if st.isRelatedArtist ∧ artistKey ≠ seedArtistName ∧ cnt < maxTracksPerArtist ∧
        ¬ s.finalTracks.any (·.id = st.track.id) then
      { s with artistCount := setCount s.artistCount artistKey (cnt + 1),
               finalTracks := s.finalTracks ++ [st.track] }
    else s

/-- Selection pass 3 body (genre-search tracks). -/
def genreSelStep (seedArtistName : String) (lim : ℕ) (s : SelState) (st : Scored) :
    SelState :=
  if s.finalTracks.length ≥ lim then s
  else
    let artistKey := primaryArtist st.track
    let cnt := countOf s.artistCount artistKey
    if ¬ s.finalTracks.any (·.id = st.track.id) then
      if artistKey = seedArtistName ∨ cnt ≥ maxTracksPerArtist then s
      else { s with artistCount := setCount s.artistCount artistKey (cnt + 1),
                    finalTracks := s.finalTracks ++ [st.track] }
    else s

/-- Seed-artist admission body (at most 2 seed-artist tracks, only after the
60%-of-limit diversity threshold; no id-duplicate check in the source). -/
def seedSelStep (seedArtistName : String) (lim : ℕ) (s : SelState) (st : Scored) :
    SelState :=
  if s.finalTracks.length ≥ lim then s
  else
    let artistKey := primaryArtist st.track
    if st.isSameArtist ∧ artistKey = seedArtistName ∧
        s.sameArtistTotal < maxSameArtistTracks then
      { artistCount := setCount s.artistCount artistKey
          (countOf s.artistCount artistKey + 1),
        sameArtistTotal := s.sameArtistTotal + 1,
        finalTracks := s.finalTracks ++ [st.track] }
    else s

/-- Remaining-slot fill body (never seed-artist tracks here). -/
def otherSelStep (seedArtistName : String) (lim : ℕ) (s : SelState) (st : Scored) :
    SelState :=
  if s.finalTracks.length ≥ lim then s
  else
    let artistKey := primaryArtist st.track
    let cnt := countOf s.artistCount artistKey
    if artistKey = seedArtistName then s
    else if ¬ s.finalTracks.any (·.id = st.track.id) ∧ cnt < maxTracksPerArtist then
      { s with artistCount := setCount s.artistCount artistKey (cnt + 1),
               finalTracks := s.finalTracks ++ [st.track] }
    else s

/-- Final related-artist boost body. -/
def boostRelatedSelStep (seedArtistName : String) (lim : ℕ) (s : SelState)
    (st : Scored) : SelState :=
  if s.finalTracks.length ≥ lim then s
  else
    let artistKey := primaryArtist st.track
    let cnt := countOf s.artistCount artistKey
    if st.isRelatedArtist ∧ ¬ s.finalTracks.any (·.id = st.track.id) ∧
        cnt < maxTracksPerArtist ∧ artistKey ≠ seedArtistName then
      { s with artistCount := setCount s.artistCount artistKey (cnt + 1),
               finalTracks := s.finalTracks ++ [st.track] }
    else s

/-- Final genre-search boost body. -/
def boostGenreSelStep (seedArtistName : String) (lim : ℕ) (s : SelState)
    (st : Scored) : SelState :=
  if s.finalTracks.length ≥ lim then s
  else
    let artistKey := primaryArtist st.track
    let cnt := countOf s.artistCount artistKey
    if ¬ s.finalTracks.any (·.id = st.track.id) ∧ artistKey ≠ seedArtistName ∧
        cnt < maxTracksPerArtist then
      { s with artistCount := setCount s.artistCount artistKey (cnt + 1),
               finalTracks := s.finalTracks ++ [st.track] }
    else s

/-- Selection pass 1: `for (const { track } of lastFmTracks) ...`. -/
def selPass1 (seedArtistName : String) (lim : ℕ) (lastFmTracks : List Scored)
    (s : SelState) : SelState :=
  lastFmTracks.foldl (lastFmSelStep seedArtistName lim) s

/-- Selection pass 2, guarded by `if (finalTracks.length < limit)`. -/
def selPass2 (seedArtistName : String) (lim : ℕ) (relatedArtistTracks : List Scored)
    (s : SelState) : SelState :=
  if s.finalTracks.length < lim then
    relatedArtistTracks.foldl (relatedSelStep seedArtistName lim) s
  else s

/-- Selection pass 3, guarded by `if (finalTracks.length < limit)` and the
(always-true in context) `currentGenreCount < min || length < limit` test. -/
def selPass3 (seedArtistName : String) (lim : ℕ) (genreSearchTracks : List Scored)
    (s : SelState) : SelState :=
  if s.finalTracks.length < lim then
    if (s.finalTracks.filter
          (fun t => genreSearchTracks.any (fun st => st.track.id = t.id))).length
        < minGenreSearchTracks lim ∨ s.finalTracks.length < lim then
      genreSearchTracks.foldl (genreSelStep seedArtistName lim) s
    else s
  else s

/-- Seed-artist admission pass: only once at least `Math.floor(limit * 0.6)`
tracks were gathered, over `seedArtistTracks.slice(0, maxSameArtistTracks)`. -/
def selPassSeed (seedArtistName : String) (lim : ℕ) (seedArtistTracks : List Scored)
    (s : SelState) : SelState :=
  if s.finalTracks.length ≥ lim * 6 / 10 then
    (seedArtistTracks.take maxSameArtistTracks).foldl (seedSelStep seedArtistName lim) s
  else s

/-- Remaining-slot fill pass. -/
def selPass4 (seedArtistName : String) (lim : ℕ) (otherTracks : List Scored)
    (s : SelState) : SelState :=
  if s.finalTracks.length < lim then
    otherTracks.foldl (otherSelStep seedArtistName lim) s
  else s

/-- Final diversity boost: `relatedCount`/`genreCount` are computed before
the guard and not refreshed in between. -/
def selBoost (seedArtistName : String) (lim : ℕ) (relatedArtists : List String)
    (relatedArtistTracks genreSearchTracks : List Scored) (s : SelState) : SelState :=
  let relatedCount := (s.finalTracks.filter
    (fun t => relatedArtists.any (fun ra => t.artists.any (· = ra)))).length
  let genreCount := (s.finalTracks.filter
    (fun t => genreSearchTracks.any (fun st => st.track.id = t.id))).length
  if s.finalTracks.length < lim then
    let s6 := if relatedCount < minRelatedArtistTracks lim
      then relatedArtistTracks.foldl (boostRelatedSelStep seedArtistName lim) s
      else s
    if genreCount < minGenreSearchTracks lim
      then genreSearchTracks.foldl (boostGenreSelStep seedArtistName lim) s6
    else s6
  else s

/-- The whole diversity-balancing selection of `findSimilarTracks`: the five
source-grouped sub-lists, the passes in order, ending with
`finalTracks.slice(0, limit)`. -/
def selectTracks (scored : List Scored) (cands : List Candidate)
    (seedArtistName : String) (relatedArtists : List String) (lim : ℕ) :
    List Candidate :=
  let seedArtistTracks := scored.filter (·.isSameArtist)
  let relatedArtistTracks := scored.filter
    (fun st => st.isRelatedArtist ∧ ¬ st.isSameArtist)
  let lastFmTracks := scored.filter
    (fun st => sourceOf cands st.track.id = some .lastfm)
  let genreSearchTracks := scored.filter
    (fun st => sourceOf cands st.track.id = some .genre_search)
  let otherTracks := scored.filter (fun st => ¬ st.isSameArtist ∧ ¬ st.isRelatedArtist ∧
      sourceOf cands st.track.id ≠ some .genre_search ∧
      sourceOf cands st.track.id ≠ some .lastfm)
  (selBoost seedArtistName lim relatedArtists relatedArtistTracks genreSearchTracks
    (selPass4 seedArtistName lim otherTracks
      (selPassSeed seedArtistName lim seedArtistTracks
        (selPass3 seedArtistName lim genreSearchTracks
          (selPass2 seedArtistName lim relatedArtistTracks
            (selPass1 seedArtistName lim lastFmTracks
              ⟨[], 0, []⟩)))))).finalTracks.take lim

/-- The final recommendation list of `findSimilarTracks` (the `tracks`
array that is formatted into the reply). -/
def finalTracksOf (env : SimEnv) : List Candidate :=
  selectTracks (scoredTracks env) (candidatePool env) env.seedArtistName
    env.relatedArtists env.limit

/-! ### Aggregation invariants

`AggStepOk s s'` captures what any single source iteration may do to the
aggregation state: leave it unchanged, record one more seen key, or append
exactly one candidate whose key was not yet seen — the first occurrence of a
key is the one that stays, every later occurrence is dropped, in every
source. -/

/-- Admissible one-iteration transitions of the aggregation state. -/
def AggStepOk (s s' : AggState) : Prop :=
  s' = s ∨
  (∃ n, s' = ⟨n :: s.seen, s.cands⟩) ∨
  (∃ c, normKey c ∉ s.seen ∧ s' = ⟨normKey c :: s.seen, s.cands ++ [c]⟩)

/-- The aggregation invariant: pool keys are pairwise distinct and all of
them are recorded in the seen set. -/
def AggInv (s : AggState) : Prop :=
  s.cands.Pairwise (fun a b => normKey a ≠ normKey b) ∧
  ∀ c ∈ s.cands, normKey c ∈ s.seen

/-! ### Selection invariants -/

/-- Number of output tracks whose primary artist is `name`. -/
def countPrimary (l : List Candidate) (name : String) : ℕ :=
  (l.filter (fun c => primaryArtist c = name)).length

/-- Distinct normalized keys, as a relation between scored entries. -/
def KeyNe (a b : Scored) : Prop :=
  normKey a.track ≠ normKey b.track

/-- The invariant the selection passes maintain: the per-artist counter map
dominates the real per-primary-artist counts of the output, non-seed
counters never exceed `maxTracksPerArtist`, the seed-artist output count is
dominated by `sameArtistTotal ≤ maxSameArtistTracks`, output keys are
pairwise distinct and every output entry is the track of some scored
entry. -/
structure SelGood (seedName : String) (scored : List Scored) (s : SelState) : Prop where
  count_le : ∀ name, countPrimary s.finalTracks name ≤ countOf s.artistCount name
  nonseed_le_one : ∀ name, name ≠ seedName → countOf s.artistCount name ≤ maxTracksPerArtist
  seed_le_total : countPrimary s.finalTracks seedName ≤ s.sameArtistTotal
  total_le_two : s.sameArtistTotal ≤ maxSameArtistTracks
  keys_pairwise : s.finalTracks.Pairwise (fun a b => normKey a ≠ normKey b)
  from_scored : ∀ c ∈ s.finalTracks, ∃ st, st ∈ scored ∧ st.track = c

/-- What every non-seed selection push does, together with the guards that
allowed it. -/
def NonSeedPush (seedName : String) (s : SelState) (st : Scored) (s' : SelState) : Prop :=
  s' = { s with
         artistCount := setCount s.artistCount (primaryArtist st.track)
           (countOf s.artistCount (primaryArtist st.track) + 1),
         finalTracks := s.finalTracks ++ [st.track] } ∧
  primaryArtist st.track ≠ seedName ∧
  countOf s.artistCount (primaryArtist st.track) < maxTracksPerArtist ∧
  ∀ c ∈ s.finalTracks, c.id ≠ st.track.id

/-- What the seed-artist admission push does. -/
def SeedPush (seedName : String) (s : SelState) (st : Scored) (s' : SelState) : Prop :=
  s' = { artistCount := setCount s.artistCount (primaryArtist st.track)
           (countOf s.artistCount (primaryArtist st.track) + 1),
         sameArtistTotal := s.sameArtistTotal + 1,
         finalTracks := s.finalTracks ++ [st.track] } ∧
  primaryArtist st.track = seedName ∧
  s.sameArtistTotal < maxSameArtistTracks

/-- A concrete Spotify resolution of a Last.fm result, used as concrete
input below. -/
def c5Track : Track := ⟨"t1", "Other Song", ["B"], "spotify:track:t1"⟩

/-- A concrete environment: the seed resolved, every source empty except one
Last.fm result whose match score is 0.05 — below the claim's 0.1 noise
threshold — which resolves to `c5Track`; small pool, limit 10. -/
def c5Env : SimEnv :=
  { seedTrack := ⟨"s1", "Seed Song", ["A"], "spotify:track:s1"⟩,
    relatedArtists := [],
    seedArtistGenres := [],
    seedArtistTopTracks := [],
    relatedTracksLists := [],
    genreSearchResults := [],
    lastFmResults := [(⟨"Other Song", "B", mkRat 1 20⟩, some c5Track)],
    excludeIds := [],
    limit := 10 }

/-! ## `generatePlaylistByMood` -/

/-- A track as the mood-search loop consumes it. -/
structure MoodTrack where
  id : String
  uri : String
  name : String
  artists : List String
deriving Repr, DecidableEq

/-- The `familiarity` enum parameter. -/
inductive Familiarity where
  | new
  | familiar
  | mixed
deriving Repr, DecidableEq

/-- The hard-coded `moodSearchMap` table. -/
def moodSearchMap (m : String) : Option (List String) :=
  if m = "happy" then some ["upbeat pop", "energetic dance", "joyful"]
  else if m = "chill" then some ["mellow", "ambient", "lo-fi", "acoustic"]
  else if m = "energetic" then some ["upbeat", "driving beat", "pump up"]
  else if m = "nostalgic" then some ["retro", "vintage", "throwback"]
  else if m = "romantic" then some ["romantic pop", "love song", "intimate"]
  else if m = "sad" then some ["melancholic", "emotional", "heartbreak"]
  else if m = "emotional" then some ["soulful", "deep", "expressive"]
  else none

/-- `moodSearchMap[mood.toLowerCase()] || [mood]`. -/
def moodSearchTerms (mood : String) : List String :=
  (moodSearchMap (toLowerStr mood)).getD [mood]

/-- `[...moodSearchTerms.slice(0,2), primaryArtist ? query : null]
.filter(Boolean)`: drops the `null` and any empty-string query. -/
def searchQueries (mood : String) (primaryArtist : Option String) : List String :=
  ((((moodSearchTerms mood).take 2).map some) ++
      [primaryArtist.map (fun a => (moodSearchTerms mood).headD "" ++ " " ++ a)]
    ).reduceOption.filter (fun q => q ≠ "")

/-- The `commonWords` list of the literal-match filter. -/
def commonWords : List String :=
  ["the", "a", "an", "is", "are", "in", "on"]

/-- The inner mood-search loop over one result page.  Faithful to the
source, the `break` fires only *after* a push makes the accumulator reach
15, so a page entered with 15 or more URIs still pushes one more track. -/
def moodSearchLoop (mood : String) (fam : Familiarity) (excludeIds : List String) :
    List MoodTrack → List String → List String → List String × List String
  | [], uris, added => (uris, added)
  | t :: rest, uris, added =>
    if ¬ commonWords.contains (toLowerStr mood) ∧
        strIncludes (toLowerStr t.name) (toLowerStr mood) then
      moodSearchLoop mood fam excludeIds rest uris added
    else if ¬ added.contains t.id ∧ (fam ≠ .new ∨ ¬ excludeIds.contains t.id) then
      let uris2 := uris ++ [t.uri]
      let added2 := t.id :: added
      if uris2.length ≥ 15 then (uris2, added2)
      else moodSearchLoop mood fam excludeIds rest uris2 added2
    else moodSearchLoop mood fam excludeIds rest uris added

/-- All issued searches in order: one result page per query (a failed or
non-ok search contributes an empty page, by the per-query try/catch). -/
def moodSearchPhase (mood : String) (fam : Familiarity) (excludeIds : List String)
    (pages : List (List MoodTrack)) : List String × List String :=
  pages.foldl (fun st page => moodSearchLoop mood fam excludeIds page st.1 st.2) ([], [])

/-- The `familiar` fill from the user's top tracks (id/uri pairs), guarded
*before* every push by `trackUris.length < 15`. -/
def familiarFill (topTracks : List (String × String)) (st : List String × List String) :
    List String × List String :=
  topTracks.foldl
    (fun st t =>
      if ¬ st.2.contains t.1 ∧ st.1.length < 15 then (st.1 ++ [t.2], t.1 :: st.2)
      else st)
    st

/-- Everything `generatePlaylistByMood` has fetched (post-recovery):
`topArtists`/`topTracks`/`likedTracks` as id/name and id/uri pairs, and the
search result pages.  (The `relatedArtistIds` gathered in step 3 are never
consumed afterwards and are not modelled.) -/
structure MoodEnv where
  mood : String
  familiarity : Familiarity
  playlistName : Option String
  topArtists : List (String × String)
  topTracks : List (String × String)
  likedTracks : List (String × String)
  searchResults : List (List MoodTrack)
deriving Repr, DecidableEq

/-- `topArtists.items[0]`, whose name seeds the third search query. -/
def MoodEnv.primaryArtist (env : MoodEnv) : Option String :=
  env.topArtists.head?.map (fun p => p.2)

/-- The exclusion set: top + liked track ids, only in `new` mode. -/
def moodExcludeIds (env : MoodEnv) : List String :=
  if env.familiarity = .new then
    env.topTracks.map (fun p => p.1) ++ env.likedTracks.map (fun p => p.1)
  else []

/-- The accumulated `trackUris` at the point the playlist is populated. -/
def moodTrackUris (env : MoodEnv) : List String :=
  let st := moodSearchPhase env.mood env.familiarity (moodExcludeIds env)
    (env.searchResults.take (searchQueries env.mood env.primaryArtist).length)
  if env.familiarity = .familiar ∧ st.1.length < 15 then
    (familiarFill env.topTracks st).1
  else st.1

/-- ASCII one-character upper-casing (JS `toUpperCase` on the initial). -/
def upperChar (c : Char) : Char :=
  if 97 ≤ c.toNat ∧ c.toNat ≤ 122 then Char.ofNat (c.toNat - 32) else c

/-- `mood.charAt(0).toUpperCase() + mood.slice(1)`. -/
def capitalizeFirst (s : String) : String :=
  match s.data with
  | [] => ""
  | c :: rest => String.mk (upperChar c :: rest)

/-- `playlistName || "Mood: ..."` (an empty given name is falsy and also
falls back). -/
def moodFinalName (mood : String) (playlistName : Option String) : String :=
  let given := playlistName.getD ""
  if given = "" then "Mood: " ++ capitalizeFirst mood else given

def familiarityName : Familiarity → String
  | .new => "new"
  | .familiar => "familiar"
  | .mixed => "mixed"

def familiarityText : Familiarity → String
  | .new => "you haven't heard yet"
  | .familiar => "from your favorites"
  | .mixed => "mix of new and familiar"

/-- The success reply of `generatePlaylistByMood`, reporting the number of
accumulated URIs twice. -/
def moodSuccessMessage (env : MoodEnv) (url : String) (n : ℕ) : String :=
  "✅ **Playlist Created: " ++ moodFinalName env.mood env.playlistName ++
    "**\n\n**Mood**: " ++ env.mood ++
    "\n**Familiarity**: " ++ familiarityName env.familiarity ++
    "\n**Tracks Added**: " ++ toString n ++
    "\n**Playlist URL**: [Open on Spotify](" ++ url ++
    ")\n\n**Summary**: " ++ toString n ++ " " ++ env.mood ++ " tracks " ++
    familiarityText env.familiarity ++ " based on your listening taste!"

/-- The fallible external interactions of one `generatePlaylistByMood` call.
`Except.error` models a thrown exception reaching the tool-level catch;
`Option` models a non-ok response where the code checks `.ok` itself.
Fetches the code wraps in its own try/catch appear post-recovery inside
`core`. -/
structure MoodExtEnv where
  core : MoodEnv
  tokenResult : Except String String
  profileResult : Except String (Option String)
  /-- the `await Promise.all` of the two uncaught library fetches and their
  `json()` calls (the liked-tracks fetch carries its own `.catch`). -/
  libraryResult : Except String Unit
  createResult : Except String (Option (String × String))
  /-- status/text reported when playlist creation is non-ok. -/
  createFailInfo : String × String
  addResult : Except String Bool

/-- The `try` block of `generatePlaylistByMood.execute`. -/
def generatePlaylistByMoodBody (env : MoodExtEnv) : Except String String := do
  let _accessToken ← env.tokenResult
  let profile? ← env.profileResult
  match profile? with
  | none => return "Failed to get user profile. Please authenticate first."
  | some _userId =>
    let _ ← env.libraryResult
    let uris := moodTrackUris env.core
    let create? ← env.createResult
    match create? with
    | none =>
      return "Failed to create playlist. Error: " ++ env.createFailInfo.1 ++ " - " ++
        env.createFailInfo.2
    | some playlist =>
      if uris.length > 0 then do
        let addOk ← env.addResult
        if ¬ addOk then
          return "Playlist created but failed to add tracks. Playlist ID: " ++ playlist.1
        else
          return moodSuccessMessage env.core playlist.2 uris.length
      else
        return moodSuccessMessage env.core playlist.2 uris.length

/-- The whole tool `execute`: the catch turns any thrown error into an
error-text reply. -/
def generatePlaylistByMoodExecute (env : MoodExtEnv) : String :=
  match generatePlaylistByMoodBody env with
  | .ok s => s
  | .error e => "Error generating playlist: " ++ e

/-! ## The `findSimilarTracks` tool wrapper -/

/-- JS `trim` on strings. -/
def strTrim (s : String) : String :=
  String.mk (trimWs s.data)

/-- The text before the first occurrence of `sep` (the whole text when
`sep` does not occur). -/
def takeUntilSub (sep : List Char) : List Char → List Char
  | [] => []
  | c :: rest =>
    if sep.isPrefixOf (c :: rest) then []
    else c :: takeUntilSub sep rest

/-- The text after the first occurrence of `sep`, or `none` when `sep` does
not occur — so `split(sep)[1]` is `takeUntilSub sep` of it, and a `some`
result is exactly `includes(sep)`. -/
def dropThroughSub (sep : List Char) : List Char → Option (List Char)
  | [] => none
  | c :: rest =>
    if sep.isPrefixOf (c :: rest) then some ((c :: rest).drop sep.length)
    else dropThroughSub sep rest

/-- Smart seed selection (step 1 of `findSimilarTracks`): prefer an exact
artist match for a `"<title> by <artist>"` query, then a substring match,
then the first hit; for artist-less non-cover queries prefer the first hit
that does not look like a karaoke/cover/tribute recording.
(`artists[0]?.name` is modelled with `headD ""`.) -/
def resolveSeedTrack (trackQuery : String) (first : Track) (items : List Track) :
    Track :=
  let queryLower := toLowerStr trackQuery
  let targetArtist : Option String :=
    match dropThroughSub " by ".data queryLower.data with
    | some tail => some (strTrim (String.mk (takeUntilSub " by ".data tail)))
    | none => none
  match targetArtist with
  | some ta =>
    match items.find? (fun tr => tr.artists.any (fun a => toLowerStr a = ta)) with
    | some m => m
    | none =>
      match items.find? (fun tr =>
          tr.artists.any (fun a => strIncludes (toLowerStr a) ta)) with
      | some m => m
      | none => first
  | none =>
    let isCoverQuery := strIncludes queryLower "karaoke" ∨
      strIncludes queryLower "instrumental" ∨ strIncludes queryLower "cover"
    if isCoverQuery then first
    else
      match items.find? (fun tr =>
          let name := toLowerStr tr.name
          let artist := toLowerStr (tr.artists.headD "")
          ¬ (strIncludes name "karaoke" ∨ strIncludes name "instrumental" ∨
            strIncludes name "cover" ∨ strIncludes artist "karaoke" ∨
            strIncludes artist "tribute")) with
      | some m => m
      | none => first

/-- The numbered track list of the reply (the catalog link field stands in
for the omitted `external_urls.spotify`). -/
def similarTracksMessage (seedTrack : Track) (seedArtistName : String)
    (tracks : List Candidate) : String :=
  let header := "🎵 **Tracks Similar to \"" ++ seedTrack.name ++ "\" by " ++
    seedArtistName ++ ":**\n\n" ++
    "**Seed Track**: [" ++ seedTrack.name ++ "](" ++ seedTrack.uri ++ ")\n\n" ++
    "**Similar Tracks** (balanced mix of same artist, related artists, and variety):\n\n"
  (tracks.enum).foldl
    (fun acc p =>
      acc ++ toString (p.1 + 1) ++ ". **" ++ p.2.name ++ "**\n   - Artist: " ++
        String.intercalate ", " p.2.artists ++ "\n   - [Listen on Spotify](" ++
        p.2.uri ++ ")\n\n")
    header

/-- The fallible external interactions of one `findSimilarTracks` call,
plus the post-recovery source payloads (every candidate-source fetch is
wrapped in its own try/catch in the code). -/
structure SimExtEnv where
  trackQuery : String
  limit : ℕ
  excludeUserTracks : Bool
  authCodeProvided : Bool
  /-- client-credentials token request: thrown / non-ok (no token) / token. -/
  clientTokenResult : Except String (Option String)
  /-- `getAccessToken(authCode)` for `excludeUserTracks`: may throw. -/
  getAccessTokenResult : Except String String
  /-- the uncaught seed search fetch: thrown / non-ok / items. -/
  seedSearchResult : Except String (Option (List Track))
  seedArtistGenres : List String
  /-- the uncaught related-artists fetch: thrown / non-ok / artist names. -/
  relatedFetchResult : Except String (Option (List String))
  seedArtistTopTracks : List Track
  relatedTracksLists : List (List Track)
  genreSearchResults : List (List Track)
  lastFmResults : List (LfmEntry × Option Track)
  excludeIdsFetched : List String

/-- The `try` block of `findSimilarTracks.execute`: resolve a token, search
and disambiguate the seed, fetch the sources, and run the pure
aggregate-score-select pipeline (`finalTracksOf`).  Accessing `artists[0]`
of a seed with no artists throws, like the member access in the source. -/
def findSimilarTracksBody (env : SimExtEnv) : Except String String := do
  let accessToken? ←
    if env.excludeUserTracks then do
      let tk ← env.getAccessTokenResult
      pure (some tk)
    else env.clientTokenResult
  match accessToken? with
  | none => return "Failed to get access token for track search."
  | some _accessToken =>
    let search? ← env.seedSearchResult
    match search? with
    | none => return "Failed to find the seed track. Please provide a track name or ID."
    | some items =>
      match items with
      | [] => return "No track found matching \"" ++ env.trackQuery ++ "\"."
      | first :: _ =>
        let seedTrack := resolveSeedTrack env.trackQuery first items
        match seedTrack.artists.head? with
        | none => throw "TypeError: Cannot read properties of undefined (reading 'id')"
        | some seedArtistName =>
          let related? ← env.relatedFetchResult
          let relatedArtists := (related?.getD []).take 5
          let simEnv : SimEnv :=
            { seedTrack := seedTrack,
              relatedArtists := relatedArtists,
              seedArtistGenres := env.seedArtistGenres,
              seedArtistTopTracks := env.seedArtistTopTracks,
              relatedTracksLists := env.relatedTracksLists,
              genreSearchResults := env.genreSearchResults,
              lastFmResults := env.lastFmResults,
              excludeIds :=
                if env.excludeUserTracks ∧ env.authCodeProvided then
                  env.excludeIdsFetched
                else [],
              limit := env.limit }
          let tracks := finalTracksOf simEnv
          if tracks = [] then
            return "No similar tracks found for \"" ++ seedTrack.name ++ "\" by " ++
              seedArtistName ++ "."
          else
            return similarTracksMessage seedTrack seedArtistName tracks

/-- The whole tool `execute`: the catch turns any thrown error into an
error-text reply. -/
def findSimilarTracksExecute (env : SimExtEnv) : String :=
  match findSimilarTracksBody env with
  | .ok s => s
  | .error e => "Error finding similar tracks: " ++ e

/-- A concrete environment for the C8 witness: mood `chill`, mode `new`,
no library data, no search results, token/profile/creation all succeed. -/
def c8Core : MoodEnv :=
  { mood := "chill", familiarity := .new, playlistName := none,
    topArtists := [], topTracks := [], likedTracks := [], searchResults := [] }

def c8Env : MoodExtEnv :=
  { core := c8Core,
    tokenResult := .ok "tk",
    profileResult := .ok (some "u1"),
    libraryResult := .ok (),
    createResult := .ok (some ("pl1", "https://open.spotify.example/pl1")),
    createFailInfo := ("", ""),
    addResult := .ok true }

/-! ## Theorems -/

/-! ### Lemmas about the normalizer -/

theorem lowerChar_lowerChar (c : Char) : lowerChar (lowerChar c) = lowerChar c := by
  unfold lowerChar
  by_cases h : 65 ≤ c.toNat ∧ c.toNat ≤ 90
  · rw [if_pos h]
    have h32 : (Char.ofNat (c.toNat + 32)).toNat = c.toNat + 32 := by
      obtain ⟨h1, h2⟩ := h
      interval_cases hn : c.toNat <;> decide
    rw [if_neg (by rw [h32]; omega)]
  · rw [if_neg h, if_neg h]

theorem map_lowerChar_of_fixed {l : List Char} (h : ∀ c ∈ l, lowerChar c = c) :
    l.map lowerChar = l := by
  induction l with
  | nil => rfl
  | cons c t ih =>
    simp only [List.map_cons, h c (List.mem_cons_self c t),
      ih (fun x hx => h x (List.mem_cons_of_mem c hx))]

theorem stripScan_some_front {ms : List (List Char)} :
    ∀ {cs p : List Char}, stripScan ms cs = some p → p <+: cs := by
  intro cs
  induction cs with
  | nil => intro p h; simp [stripScan] at h
  | cons c rest ih =>
    intro p h
    rw [stripScan] at h
    split at h
    · cases h; exact ⟨c :: rest, rfl⟩
    · rcases Option.map_eq_some'.mp h with ⟨q, hq, rfl⟩
      exact List.cons_prefix_cons.mpr ⟨rfl, ih hq⟩

theorem rtrimWs_front (cs : List Char) : rtrimWs cs <+: cs := by
  have h := List.dropWhile_suffix (l := cs.reverse) isJsWs
  rcases h with ⟨t, ht⟩
  refine ⟨t.reverse, ?_⟩
  have := congrArg List.reverse ht
  simpa [rtrimWs, List.reverse_append] using this

theorem ltrimWs_suffix (cs : List Char) : ltrimWs cs <:+ cs :=
  List.dropWhile_suffix isJsWs

theorem stripPattern_sublist (ms : List (List Char)) (cs : List Char) :
    (stripPattern ms cs).Sublist cs := by
  unfold stripPattern
  split
  · exact List.Sublist.refl cs
  · next p hp =>
    exact ((rtrimWs_front p).sublist).trans (stripScan_some_front hp).sublist

theorem trimWs_sublist (cs : List Char) : (trimWs cs).Sublist cs :=
  ((rtrimWs_front (ltrimWs cs)).sublist).trans (ltrimWs_suffix cs).sublist

theorem noLT_sublist {l r : List Char} (h : l.Sublist r) (hno : noLT r) : noLT l :=
  fun c hc => hno c (List.Sublist.mem hc h)

/-- A regex hit at the head of a starting piece of a terminator-free text is
a hit at the head of the whole text: the marker still matches and the
extended remainder is again free of line terminators. -/
theorem markerHit_mono {ms : List (List Char)} {l r : List Char}
    (hp : l <+: r) (hno : noLT r) (h : markerHit ms l = true) :
    markerHit ms r = true := by
  rcases List.any_eq_true.mp h with ⟨m, hm, hcond⟩
  rw [Bool.and_eq_true] at hcond
  obtain ⟨hpre, _⟩ := hcond
  refine List.any_eq_true.mpr ⟨m, hm, ?_⟩
  rw [Bool.and_eq_true]
  constructor
  · rw [ List.isPrefixOf_iff_prefix] at hpre ⊢
    exact hpre.trans hp
  · rw [List.all_eq_true]
    intro c hc
    have hcr : c ∈ r := List.Sublist.mem hc (List.drop_sublist _ _)
    simp [hno c hcr]

theorem stripScan_cons_none {ms : List (List Char)} {c : Char} {rest : List Char}
    (h : stripScan ms (c :: rest) = none) :
    ¬(isSep c ∧ markerHit ms rest) ∧ stripScan ms rest = none := by
  rw [stripScan] at h
  split at h
  · exact absurd h (by simp)
  · next hc => exact ⟨hc, Option.map_eq_none'.mp h⟩

/-- A clean terminator-free text (no separator with a completable marker
match) stays clean when truncated to a prefix: any hit in the prefix would
already be a hit in the full text. -/
theorem stripScan_none_of_front {ms : List (List Char)} :
    ∀ {cs l : List Char}, stripScan ms cs = none → noLT cs → l <+: cs →
      stripScan ms l = none := by
  intro cs
  induction cs with
  | nil =>
    intro l _ _ hp
    rw [List.prefix_nil.mp hp]; rfl
  | cons c rest ih =>
    intro l h hno hp
    obtain ⟨hc, hrest⟩ := stripScan_cons_none h
    have hnorest : noLT rest := fun x hx => hno x (List.mem_cons_of_mem _ hx)
    match l, hp with
    | [], _ => rfl
    | x :: l', hp =>
      obtain ⟨rfl, hl'⟩ := (List.cons_prefix_cons.mp hp)
      rw [stripScan]
      rw [if_neg, ih hrest hnorest hl', Option.map_none']
      intro ⟨hsep, hmark⟩
      exact hc ⟨hsep, markerHit_mono hl' hnorest hmark⟩

/-- Cleanliness also passes to suffixes: every position of the suffix is a
position of the full text with the identical following text. -/
theorem stripScan_none_of_suffix {ms : List (List Char)} :
    ∀ {t l : List Char}, stripScan ms (t ++ l) = none → stripScan ms l = none := by
  intro t
  induction t with
  | nil => intro l h; exact h
  | cons c t' ih =>
    intro l h
    exact ih (stripScan_cons_none (by simpa using h)).2

/-- The text kept by a successful strip of a terminator-free input has no
further hit. -/
theorem stripScan_none_of_some {ms : List (List Char)} :
    ∀ {cs p : List Char}, stripScan ms cs = some p → noLT cs →
      stripScan ms p = none := by
  intro cs
  induction cs with
  | nil => intro p h _; simp [stripScan] at h
  | cons c rest ih =>
    intro p h hno
    have hnorest : noLT rest := fun x hx => hno x (List.mem_cons_of_mem _ hx)
    rw [stripScan] at h
    split at h
    · cases h; rfl
    · next hc =>
      rcases Option.map_eq_some'.mp h with ⟨q, hq, rfl⟩
      rw [stripScan, if_neg, ih hq hnorest, Option.map_none']
      intro ⟨hsep, hmark⟩
      exact hc ⟨hsep, markerHit_mono (stripScan_some_front hq) hnorest hmark⟩

theorem stripPattern_of_none {ms : List (List Char)} {cs : List Char}
    (h : stripScan ms cs = none) : stripPattern ms cs = cs := by
  unfold stripPattern
  rw [h]

theorem stripScan_stripPattern (ms : List (List Char)) (cs : List Char)
    (hno : noLT cs) : stripScan ms (stripPattern ms cs) = none := by
  unfold stripPattern
  split
  · next h => exact h
  · next p hp =>
    have hnop : noLT p := noLT_sublist (stripScan_some_front hp).sublist hno
    rcases rtrimWs_front p with ⟨t, ht⟩
    exact stripScan_none_of_front (stripScan_none_of_some hp hno) hnop ⟨t, ht⟩

/-- Every marker of the second (narrow) strip regex is a marker of the first
(broad) one, with the identical completion condition, so a text clean for
the first is clean for the second. -/
theorem markerHit_two_imp_one {r : List Char}
    (h : markerHit stripMarkers2 r = true) : markerHit stripMarkers1 r = true := by
  rcases List.any_eq_true.mp h with ⟨m, hm, hcond⟩
  refine List.any_eq_true.mpr ⟨m, ?_, hcond⟩
  simp only [stripMarkers2, List.mem_cons, List.not_mem_nil, or_false] at hm
  rcases hm with rfl | rfl | rfl | rfl | rfl | rfl | rfl | rfl <;> decide

theorem stripScan_two_none_of_one {cs : List Char}
    (h : stripScan stripMarkers1 cs = none) : stripScan stripMarkers2 cs = none := by
  induction cs with
  | nil => rfl
  | cons c rest ih =>
    obtain ⟨hc, hrest⟩ := stripScan_cons_none h
    rw [stripScan, if_neg, ih hrest, Option.map_none']
    intro ⟨hsep, hmark⟩
    exact hc ⟨hsep, markerHit_two_imp_one hmark⟩

theorem dropWhile_dropWhile (p : α → Bool) (l : List α) :
    List.dropWhile p (List.dropWhile p l) = List.dropWhile p l := by
  induction l with
  | nil => rfl
  | cons c t ih =>
    rw [List.dropWhile_cons]
    split
    · exact ih
    · next hc => rw [List.dropWhile_cons, if_neg hc]

theorem rtrimWs_rtrimWs (cs : List Char) : rtrimWs (rtrimWs cs) = rtrimWs cs := by
  unfold rtrimWs
  rw [List.reverse_reverse, dropWhile_dropWhile]

theorem dropWhile_head_false (p : α → Bool) :
    ∀ (l : List α) (c : α) (t : List α), List.dropWhile p l = c :: t → p c = false := by
  intro l
  induction l with
  | nil => intro c t h; simp [List.dropWhile] at h
  | cons x xs ih =>
    intro c t h
    rw [List.dropWhile_cons] at h
    split at h
    · exact ih c t h
    · next hx =>
      cases h
      simpa using hx

theorem ltrimWs_rtrimWs_ltrimWs (cs : List Char) :
    ltrimWs (rtrimWs (ltrimWs cs)) = rtrimWs (ltrimWs cs) := by
  rcases h : rtrimWs (ltrimWs cs) with _ | ⟨c, t⟩
  · rfl
  · have hpre : c :: t <+: ltrimWs cs := h ▸ rtrimWs_front (ltrimWs cs)
    rcases hpre with ⟨t2, ht2⟩
    have hdw : List.dropWhile isJsWs cs = c :: (t ++ t2) := by
      simpa [ltrimWs] using ht2.symm
    have hc : isJsWs c = false := dropWhile_head_false isJsWs cs c (t ++ t2) hdw
    unfold ltrimWs
    rw [List.dropWhile_cons, if_neg (by simp [hc])]

theorem trimWs_trimWs (cs : List Char) : trimWs (trimWs cs) = trimWs cs := by
  unfold trimWs
  rw [ltrimWs_rtrimWs_ltrimWs, rtrimWs_rtrimWs]

/-- Cleanliness passes to the trimmed text (a prefix of a suffix). -/
theorem stripScan_none_trimWs {ms : List (List Char)} {cs : List Char}
    (h : stripScan ms cs = none) (hno : noLT cs) :
    stripScan ms (trimWs cs) = none := by
  have hsuf : stripScan ms (ltrimWs cs) = none := by
    rcases ltrimWs_suffix cs with ⟨t, ht⟩
    exact stripScan_none_of_suffix (t := t) (by rw [ht]; exact h)
  have hnol : noLT (ltrimWs cs) := noLT_sublist (ltrimWs_suffix cs).sublist hno
  exact stripScan_none_of_front hsuf hnol (rtrimWs_front (ltrimWs cs))

theorem noLT_map_lowerChar {cs : List Char} (hno : noLT cs) :
    noLT (cs.map lowerChar) := by
  intro c hc
  rcases List.mem_map.mp hc with ⟨c0, hc0, rfl⟩
  have h0 := hno c0 hc0
  unfold lowerChar
  split
  · next hr =>
    obtain ⟨h1, h2⟩ := hr
    interval_cases hn : c0.toNat <;> decide
  · exact h0

/-- **C6, counterexample.**  The claim asserts idempotence for *every*
string, the empty string included.  With the real regex semantics — `.`
does not match line terminators and `$` without the `m` flag matches only
at the very end of the input — a title with an embedded newline defeats
it: in `"a -with\n-live"` the early `-with` alternative cannot complete
(`.*$` cannot cross the newline), the match instead fires at `-live` (the
`\s*` absorbs the newline), and the narrow second regex has no `with`
marker, so one pass yields `"a -with"`; normalizing that again strips
`-with` and yields `"a"`.  So `normalize ∘ normalize ≠ normalize` at this
input. -/
theorem c6_counterexample :
    normalizeTrackNameForComparison "a -with\n-live" = "a -with" ∧
    normalizeTrackNameForComparison
        (normalizeTrackNameForComparison "a -with\n-live") = "a" ∧
    normalizeTrackNameForComparison
        (normalizeTrackNameForComparison "a -with\n-live")
      ≠ normalizeTrackNameForComparison "a -with\n-live" := by
  refine ⟨by decide, by decide, by decide⟩

/-- **C6, amended.**  `normalizeTrackNameForComparison` is a pure total
function of its input (a Lean `def` on all of `String`), and it is
idempotent on every title free of line terminators — in particular on
every ordinary one-line track name, the empty string included.  For such
input the first pass leaves a lower-case, trimmed text with no completable
separator+marker hit, which the second pass fixes.  (Full universal
idempotence fails: see the counterexample's newline title.) -/
theorem c6_normalize_idem_of_noLT (t : String)
    (hno : ∀ c ∈ t.data, isLineTerm c = false) :
    normalizeTrackNameForComparison (normalizeTrackNameForComparison t)
      = normalizeTrackNameForComparison t := by
  unfold normalizeTrackNameForComparison
  have hdata :
      (String.mk (trimWs (stripPattern stripMarkers2
        (stripPattern stripMarkers1 (t.data.map lowerChar))))).data
      = trimWs (stripPattern stripMarkers2
        (stripPattern stripMarkers1 (t.data.map lowerChar))) := rfl
  rw [hdata]
  have hnoL : noLT (t.data.map lowerChar) := noLT_map_lowerChar hno
  set L := t.data.map lowerChar with hL
  set A := stripPattern stripMarkers1 L with hA
  have hnoA : noLT A := noLT_sublist (stripPattern_sublist stripMarkers1 L) hnoL
  have clean1A : stripScan stripMarkers1 A = none :=
    stripScan_stripPattern _ _ hnoL
  have clean2A : stripScan stripMarkers2 A = none := stripScan_two_none_of_one clean1A
  have hBA : stripPattern stripMarkers2 A = A := stripPattern_of_none clean2A
  rw [hBA]
  set C := trimWs A with hC
  have hCsubL : C.Sublist L :=
    (trimWs_sublist A).trans (stripPattern_sublist _ _)
  have hfix : ∀ c ∈ C, lowerChar c = c := by
    intro c hc
    have hcL : c ∈ L := List.Sublist.mem hc hCsubL
    rcases List.mem_map.mp (hL ▸ hcL) with ⟨c0, _, rfl⟩
    exact lowerChar_lowerChar c0
  rw [map_lowerChar_of_fixed hfix]
  have clean1C : stripScan stripMarkers1 C = none :=
    stripScan_none_trimWs clean1A hnoA
  have clean2C : stripScan stripMarkers2 C = none := stripScan_two_none_of_one clean1C
  rw [stripPattern_of_none clean1C, stripPattern_of_none clean2C]
  rw [hC, trimWs_trimWs]

/-- Witness for the amended idempotence at a concrete one-line title. -/
theorem c6_normalize_idem_witness :
    (∀ c ∈ ("Song Title (Acoustic Version)" : String).data, isLineTerm c = false) ∧
    normalizeTrackNameForComparison
        (normalizeTrackNameForComparison "Song Title (Acoustic Version)")
      = normalizeTrackNameForComparison "Song Title (Acoustic Version)" :=
  ⟨by decide, c6_normalize_idem_of_noLT "Song Title (Acoustic Version)" (by decide)⟩

/-- **C10, counterexample.**  The claim asserts
`normalizeTrackNameForComparison "Me - Without You" = "me"`.  It is false: the
strip regexes require the marker word immediately after the `-`/`(`
separator, and in `"Me - Without You"` a space stands between the dash and
`Without`, so nothing is stripped and the result keeps the whole title. -/
theorem c10_counterexample :
    normalizeTrackNameForComparison "Me - Without You" = "me - without you" ∧
    normalizeTrackNameForComparison "Me - Without You" ≠ "me" := by
  constructor
  · decide
  · decide

/-- **C10, amended.**  The strip patterns do match a marker as a mere prefix
of the text following the separator (no word boundary): with the marker
directly after the separator, `"Me (Without You)"` and `"Me -Without You"`
both lose the whole trailing block because `with` is a starting piece of
`Without`, and collapse to the normalized key of the distinct title `"Me"`.
Only the claim's example title, which has a space between the dash and the
marker, is not stripped. -/
theorem c10_amended :
    normalizeTrackNameForComparison "Me (Without You)" = "me" ∧
    normalizeTrackNameForComparison "Me -Without You" = "me" ∧
    normalizeTrackNameForComparison "Me" = "me" := by
  refine ⟨by decide, by decide, by decide⟩

/-- **C1, counterexample.**  The claim says the base score induced by the
provenance tag alone orders crowd-similarity > related-artist >
genre-search > seed-artist strictly, for candidates differing only in the
tag.  In the code the tag contributes to the score only through the `+15`
Last.fm bonus: for the concrete candidate below (artist `"a"`, seed artist
`"s"`, no related artists), the `related_artist`-tagged, the
`genre_search`-tagged and the `seed_artist`-tagged copies all score 0, so
neither `related > genre` nor `genre > seed` holds strictly. -/
theorem c1_counterexample :
    (scoreCandidate "s" [] ""
        ⟨"t1", "x", ["a"], "u", "", .related_artist⟩).score
      = (scoreCandidate "s" [] ""
        ⟨"t1", "x", ["a"], "u", "", .genre_search⟩).score ∧
    (scoreCandidate "s" [] ""
        ⟨"t1", "x", ["a"], "u", "", .genre_search⟩).score
      = (scoreCandidate "s" [] ""
        ⟨"t1", "x", ["a"], "u", "", .seed_artist⟩).score ∧
    ¬ ((scoreCandidate "s" [] ""
        ⟨"t1", "x", ["a"], "u", "", .genre_search⟩).score
      > (scoreCandidate "s" [] ""
        ⟨"t1", "x", ["a"], "u", "", .seed_artist⟩).score) := by
  refine ⟨by decide, by decide, by decide⟩

theorem aggStepOk_seedArtistStep (seedId seedNorm : String) (s : AggState)
    (t : Track) : AggStepOk s (seedArtistStep seedId seedNorm s t) := by
  unfold AggStepOk
  simp only [seedArtistStep]
  split
  · exact Or.inl rfl
  · split
    · exact Or.inl rfl
    · next h =>
      push_neg at h
      exact Or.inr (Or.inr
        ⟨mkCandidate t "similar emotional and rhythmic feel" .seed_artist, h.2, rfl⟩)

theorem aggStepOk_relatedStep (seedNorm : String) (s : AggState) (t : Track) :
    AggStepOk s (relatedStep seedNorm s t) := by
  unfold AggStepOk
  simp only [relatedStep]
  split
  · exact Or.inl rfl
  · next h =>
    push_neg at h
    exact Or.inr (Or.inr
      ⟨mkCandidate t "similar emotional and rhythmic feel" .related_artist, h.2, rfl⟩)

theorem aggStepOk_genreStep (seedArtistName seedNorm : String) (s : AggState)
    (t : Track) : AggStepOk s (genreStep seedArtistName seedNorm s t) := by
  unfold AggStepOk
  simp only [genreStep]
  split
  · exact Or.inl rfl
  · split
    · exact Or.inl rfl
    · next h =>
      push_neg at h
      split
      · exact Or.inr (Or.inl ⟨_, rfl⟩)
      · exact Or.inr (Or.inr
          ⟨mkCandidate t "similar emotional and rhythmic feel" .genre_search, h.2, rfl⟩)

theorem aggStepOk_lastFmStep (seedNorm : String) (s : AggState)
    (er : LfmEntry × Option Track) : AggStepOk s (lastFmStep seedNorm s er) := by
  unfold AggStepOk
  simp only [lastFmStep]
  split
  · exact Or.inl rfl
  · split
    · exact Or.inl rfl
    · next t heq =>
      split
      · exact Or.inl rfl
      · next h =>
        push_neg at h
        split
        · exact Or.inr (Or.inl ⟨_, rfl⟩)
        · exact Or.inr (Or.inr
            ⟨mkCandidate t "similar vibe and audience" .lastfm, h.2, rfl⟩)

theorem AggStepOk.inv {s s' : AggState} (hok : AggStepOk s s') (h : AggInv s) :
    AggInv s' := by
  obtain ⟨hpw, hseen⟩ := h
  rcases hok with rfl | ⟨n, rfl⟩ | ⟨c, hc, rfl⟩
  · exact ⟨hpw, hseen⟩
  · exact ⟨hpw, fun c hcm => List.mem_cons_of_mem n (hseen c hcm)⟩
  · refine ⟨?_, ?_⟩
    · refine List.pairwise_append.mpr ⟨hpw, List.pairwise_singleton _ _, ?_⟩
      intro a ha b hb
      rw [List.mem_singleton] at hb
      subst hb
      intro hkey
      exact hc (hkey ▸ hseen a ha)
    · intro x hx
      rcases List.mem_append.mp hx with hx | hx
      · exact List.mem_cons_of_mem _ (hseen x hx)
      · rw [List.mem_singleton] at hx
        subst hx
        exact List.mem_cons_self _ _

theorem AggStepOk.cands_front {s s' : AggState} (hok : AggStepOk s s') :
    s.cands <+: s'.cands := by
  rcases hok with rfl | ⟨n, rfl⟩ | ⟨c, _, rfl⟩
  · exact List.prefix_refl _
  · exact List.prefix_refl _
  · exact List.prefix_append _ _

theorem foldl_aggInv {α : Type _} {f : AggState → α → AggState}
    (hf : ∀ s a, AggStepOk s (f s a)) :
    ∀ (l : List α) (s : AggState), AggInv s → AggInv (l.foldl f s) := by
  intro l
  induction l with
  | nil => intro s h; exact h
  | cons a t ih => intro s h; exact ih (f s a) ((hf s a).inv h)

theorem foldl_inv_of_step {α σ : Type _} {f : σ → α → σ} {P : σ → Prop}
    (hf : ∀ s a, P s → P (f s a)) :
    ∀ (l : List α) (s : σ), P s → P (l.foldl f s) := by
  intro l
  induction l with
  | nil => intro s h; exact h
  | cons a t ih => intro s h; exact ih (f s a) (hf s a h)

/-- The full aggregation chain (step 3a-3d) preserves the invariant. -/
theorem aggFinalState_inv (env : SimEnv) : AggInv (aggFinalState env) := by
  have h0 : AggInv ⟨[], []⟩ := ⟨List.Pairwise.nil, by intro c hc; cases hc⟩
  unfold aggFinalState addSeedArtistTracks addRelatedTracks addGenreTracks
    addLastFmTracks
  refine foldl_inv_of_step
    (fun s a h => ((aggStepOk_lastFmStep env.seedNorm s a).inv h)) _ _ ?_
  refine foldl_inv_of_step (fun s items h => ?_) _ _ ?_
  · exact foldl_inv_of_step
      (fun s t h => ((aggStepOk_genreStep env.seedArtistName env.seedNorm s t).inv h))
      _ _ h
  refine foldl_inv_of_step (fun s tl h => ?_) _ _ ?_
  · exact foldl_inv_of_step
      (fun s t h => ((aggStepOk_relatedStep env.seedNorm s t).inv h)) _ _ h
  exact foldl_inv_of_step
    (fun s t h => ((aggStepOk_seedArtistStep env.seedTrack.id env.seedNorm s t).inv h))
    _ _ h0

/-- The candidate pool has pairwise-distinct normalized-name keys. -/
theorem candidatePool_pairwise (env : SimEnv) :
    (candidatePool env).Pairwise (fun a b => normKey a ≠ normKey b) :=
  (aggFinalState_inv env).1

/-- **C1, amended.**  For candidates that differ only in the provenance tag,
the score depends on the tag exactly through the crowd-similarity bonus: a
`lastfm`-tagged candidate scores precisely 15 more than any otherwise
identical candidate, and the `related_artist`, `genre_search` and
`seed_artist` tags all score equally.  (The related-artist > seed-artist >
unrelated preference comes from the artist-relationship bonuses +8/+6, and
the crowd > related > genre > seed ordering of the output is enforced by the
selection pass order, not by the base score.) -/
theorem c1_amended (seedArtistName : String) (relatedArtists : List String)
    (seedMetadata : String) (c : Candidate) :
    (scoreCandidate seedArtistName relatedArtists seedMetadata
        { c with source := .lastfm }).score
      = (scoreCandidate seedArtistName relatedArtists seedMetadata
        { c with source := .related_artist }).score + 15 ∧
    (scoreCandidate seedArtistName relatedArtists seedMetadata
        { c with source := .related_artist }).score
      = (scoreCandidate seedArtistName relatedArtists seedMetadata
        { c with source := .genre_search }).score ∧
    (scoreCandidate seedArtistName relatedArtists seedMetadata
        { c with source := .genre_search }).score
      = (scoreCandidate seedArtistName relatedArtists seedMetadata
        { c with source := .seed_artist }).score := by
  refine ⟨?_, ?_, ?_⟩ <;> simp [scoreCandidate]

theorem countOf_setCount_self (m : List (String × ℕ)) (k : String) (v : ℕ) :
    countOf (setCount m k v) k = v := by
  unfold countOf setCount
  rw [List.find?_cons_of_pos _ (by simp)]

theorem countOf_setCount_ne (m : List (String × ℕ)) {k k' : String} (v : ℕ)
    (h : k' ≠ k) : countOf (setCount m k v) k' = countOf m k' := by
  unfold countOf setCount
  rw [List.find?_cons_of_neg _ (by simp [Ne.symm h])]

theorem countPrimary_append_single (l : List Candidate) (c : Candidate) (name : String) :
    countPrimary (l ++ [c]) name
      = countPrimary l name + (if primaryArtist c = name then 1 else 0) := by
  unfold countPrimary
  rw [List.filter_append, List.length_append]
  congr 1
  by_cases h : primaryArtist c = name
  · simp [h]
  · simp [h]

theorem countPrimary_le_of_sublist {l1 l2 : List Candidate} (h : l1.Sublist l2)
    (name : String) : countPrimary l1 name ≤ countPrimary l2 name :=
  List.Sublist.length_le (h.filter _)

theorem countPrimary_zero_iff (l : List Candidate) (name : String) :
    countPrimary l name = 0 ↔ ∀ c ∈ l, primaryArtist c ≠ name := by
  unfold countPrimary
  rw [List.length_eq_zero, List.filter_eq_nil_iff]
  simp

theorem scored_eq_of_key_eq {scored : List Scored} (hpw : scored.Pairwise KeyNe)
    {a b : Scored} (ha : a ∈ scored) (hb : b ∈ scored)
    (h : normKey a.track = normKey b.track) : a = b := by
  by_contra hne
  exact List.Pairwise.forall (fun x y hxy => Ne.symm hxy) hpw ha hb hne h

theorem SelGood.push_nonseed {seedName : String} {scored : List Scored}
    {s s' : SelState} {st : Scored} (hpw : scored.Pairwise KeyNe)
    (hg : SelGood seedName scored s) (hst : st ∈ scored)
    (hp : NonSeedPush seedName s st s') :
    SelGood seedName scored s' ∧ s'.sameArtistTotal = s.sameArtistTotal ∧
      countPrimary s'.finalTracks seedName = countPrimary s.finalTracks seedName := by
  obtain ⟨rfl, hkey, hcnt, hid⟩ := hp
  have hkeyfresh : ∀ c ∈ s.finalTracks, normKey c ≠ normKey st.track := by
    intro c hc hkeq
    rcases hg.from_scored c hc with ⟨st', hst', rfl⟩
    have heq : st' = st := scored_eq_of_key_eq hpw hst' hst hkeq
    subst heq
    exact hid _ hc rfl
  refine ⟨⟨?_, ?_, ?_, ?_, ?_, ?_⟩, rfl, ?_⟩
  · intro name
    dsimp only
    rw [countPrimary_append_single]
    by_cases hname : primaryArtist st.track = name
    · rw [if_pos hname, ← hname, countOf_setCount_self]
      have := hg.count_le (primaryArtist st.track)
      omega
    · rw [if_neg hname, countOf_setCount_ne _ _ (fun hcon => hname hcon.symm)]
      simpa using hg.count_le name
  · intro name hne
    dsimp only
    by_cases hname : name = primaryArtist st.track
    · rw [hname, countOf_setCount_self]
      unfold maxTracksPerArtist at hcnt ⊢
      omega
    · rw [countOf_setCount_ne _ _ hname]
      exact hg.nonseed_le_one name hne
  · dsimp only
    rw [countPrimary_append_single, if_neg hkey]
    simpa using hg.seed_le_total
  · exact hg.total_le_two
  · dsimp only
    refine List.pairwise_append.mpr ⟨hg.keys_pairwise, List.pairwise_singleton _ _, ?_⟩
    intro a ha b hb
    rw [List.mem_singleton] at hb
    subst hb
    exact hkeyfresh a ha
  · intro c hc
    dsimp only at hc
    rcases List.mem_append.mp hc with hc | hc
    · exact hg.from_scored c hc
    · rw [List.mem_singleton] at hc
      exact ⟨st, hst, hc.symm⟩
  · dsimp only
    rw [countPrimary_append_single, if_neg hkey]
    omega

theorem SelGood.push_seed {seedName : String} {scored : List Scored}
    {s s' : SelState} {st : Scored}
    (hg : SelGood seedName scored s) (hst : st ∈ scored)
    (hp : SeedPush seedName s st s')
    (hfresh : ∀ c ∈ s.finalTracks, normKey c ≠ normKey st.track) :
    SelGood seedName scored s' := by
  obtain ⟨rfl, hkey, htot⟩ := hp
  refine ⟨?_, ?_, ?_, ?_, ?_, ?_⟩
  · intro name
    dsimp only
    rw [countPrimary_append_single]
    by_cases hname : primaryArtist st.track = name
    · rw [if_pos hname, ← hname, countOf_setCount_self]
      have := hg.count_le (primaryArtist st.track)
      omega
    · rw [if_neg hname, countOf_setCount_ne _ _ (fun hcon => hname hcon.symm)]
      simpa using hg.count_le name
  · intro name hne
    dsimp only
    rw [countOf_setCount_ne _ _ (by rw [hkey]; exact hne)]
    exact hg.nonseed_le_one name hne
  · dsimp only
    rw [countPrimary_append_single, if_pos hkey]
    have := hg.seed_le_total
    omega
  · dsimp only
    unfold maxSameArtistTracks at htot ⊢
    omega
  · dsimp only
    refine List.pairwise_append.mpr ⟨hg.keys_pairwise, List.pairwise_singleton _ _, ?_⟩
    intro a ha b hb
    rw [List.mem_singleton] at hb
    subst hb
    exact hfresh a ha
  · intro c hc
    dsimp only at hc
    rcases List.mem_append.mp hc with hc | hc
    · exact hg.from_scored c hc
    · rw [List.mem_singleton] at hc
      exact ⟨st, hst, hc.symm⟩

theorem lastFmSelStep_cases (seedName : String) (lim : ℕ) (s : SelState) (st : Scored) :
    lastFmSelStep seedName lim s st = s ∨
      NonSeedPush seedName s st (lastFmSelStep seedName lim s st) := by
  unfold NonSeedPush
  simp only [lastFmSelStep]
  split
  · exact Or.inl rfl
  · split
    · next hid =>
      split
      · exact Or.inl rfl
      · next hcond =>
        push_neg at hcond
        refine Or.inr ⟨rfl, hcond.1, hcond.2, ?_⟩
        intro c hc hceq
        exact hid (List.any_eq_true.mpr ⟨c, hc, by simp [hceq]⟩)
    · exact Or.inl rfl

theorem relatedSelStep_cases (seedName : String) (lim : ℕ) (s : SelState) (st : Scored) :
    relatedSelStep seedName lim s st = s ∨
      NonSeedPush seedName s st (relatedSelStep seedName lim s st) := by
  unfold NonSeedPush
  simp only [relatedSelStep]
  split
  · exact Or.inl rfl
  · split
    · next hcond =>
      refine Or.inr ⟨rfl, hcond.2.1, hcond.2.2.1, ?_⟩
      intro c hc hceq
      exact hcond.2.2.2 (List.any_eq_true.mpr ⟨c, hc, by simp [hceq]⟩)
    · exact Or.inl rfl

theorem genreSelStep_cases (seedName : String) (lim : ℕ) (s : SelState) (st : Scored) :
    genreSelStep seedName lim s st = s ∨
      NonSeedPush seedName s st (genreSelStep seedName lim s st) := by
  unfold NonSeedPush
  simp only [genreSelStep]
  split
  · exact Or.inl rfl
  · split
    · next hid =>
      split
      · exact Or.inl rfl
      · next hcond =>
        push_neg at hcond
        refine Or.inr ⟨rfl, hcond.1, hcond.2, ?_⟩
        intro c hc hceq
        exact hid (List.any_eq_true.mpr ⟨c, hc, by simp [hceq]⟩)
    · exact Or.inl rfl

theorem otherSelStep_cases (seedName : String) (lim : ℕ) (s : SelState) (st : Scored) :
    otherSelStep seedName lim s st = s ∨
      NonSeedPush seedName s st (otherSelStep seedName lim s st) := by
  unfold NonSeedPush
  simp only [otherSelStep]
  split
  · exact Or.inl rfl
  · split
    · exact Or.inl rfl
    · next hkey =>
      split
      · next hcond =>
        refine Or.inr ⟨rfl, hkey, hcond.2, ?_⟩
        intro c hc hceq
        exact hcond.1 (List.any_eq_true.mpr ⟨c, hc, by simp [hceq]⟩)
      · exact Or.inl rfl

theorem boostRelatedSelStep_cases (seedName : String) (lim : ℕ) (s : SelState)
    (st : Scored) :
    boostRelatedSelStep seedName lim s st = s ∨
      NonSeedPush seedName s st (boostRelatedSelStep seedName lim s st) := by
  unfold NonSeedPush
  simp only [boostRelatedSelStep]
  split
  · exact Or.inl rfl
  · split
    · next hcond =>
      refine Or.inr ⟨rfl, hcond.2.2.2, hcond.2.2.1, ?_⟩
      intro c hc hceq
      exact hcond.2.1 (List.any_eq_true.mpr ⟨c, hc, by simp [hceq]⟩)
    · exact Or.inl rfl

theorem boostGenreSelStep_cases (seedName : String) (lim : ℕ) (s : SelState)
    (st : Scored) :
    boostGenreSelStep seedName lim s st = s ∨
      NonSeedPush seedName s st (boostGenreSelStep seedName lim s st) := by
  unfold NonSeedPush
  simp only [boostGenreSelStep]
  split
  · exact Or.inl rfl
  · split
    · next hcond =>
      refine Or.inr ⟨rfl, hcond.2.1, hcond.2.2, ?_⟩
      intro c hc hceq
      exact hcond.1 (List.any_eq_true.mpr ⟨c, hc, by simp [hceq]⟩)
    · exact Or.inl rfl

theorem seedSelStep_cases (seedName : String) (lim : ℕ) (s : SelState) (st : Scored) :
    seedSelStep seedName lim s st = s ∨
      SeedPush seedName s st (seedSelStep seedName lim s st) := by
  unfold SeedPush
  simp only [seedSelStep]
  split
  · exact Or.inl rfl
  · split
    · next hcond => exact Or.inr ⟨rfl, hcond.2.1, hcond.2.2⟩
    · exact Or.inl rfl

theorem selGood_foldl_nonseed {seedName : String} {scored : List Scored}
    {f : SelState → Scored → SelState} (hpw : scored.Pairwise KeyNe)
    (hf : ∀ s st, f s st = s ∨ NonSeedPush seedName s st (f s st)) :
    ∀ (L : List Scored), (∀ e ∈ L, e ∈ scored) → ∀ (s : SelState),
      SelGood seedName scored s →
      SelGood seedName scored (L.foldl f s) ∧
      (L.foldl f s).sameArtistTotal = s.sameArtistTotal ∧
      countPrimary (L.foldl f s).finalTracks seedName
        = countPrimary s.finalTracks seedName := by
  intro L
  induction L with
  | nil => intro _ s hg; exact ⟨hg, rfl, rfl⟩
  | cons e L2 ih =>
    intro hsub s hg
    rw [List.foldl_cons]
    rcases hf s e with heq | hpush
    · rw [heq]
      exact ih (fun x hx => hsub x (List.mem_cons_of_mem _ hx)) s hg
    · obtain ⟨hg1, ht1, hc1⟩ := SelGood.push_nonseed hpw hg
        (hsub e (List.mem_cons_self _ _)) hpush
      obtain ⟨hg2, ht2, hc2⟩ :=
        ih (fun x hx => hsub x (List.mem_cons_of_mem _ hx)) (f s e) hg1
      exact ⟨hg2, by rw [ht2, ht1], by rw [hc2, hc1]⟩

theorem selGood_foldl_seed {seedName : String} {lim : ℕ} {scored : List Scored}
    (hpw : scored.Pairwise KeyNe) :
    ∀ (L : List Scored), L.Nodup → (∀ e ∈ L, e ∈ scored) → ∀ (s : SelState),
      SelGood seedName scored s →
      (∀ c ∈ s.finalTracks, primaryArtist c = seedName →
        ∃ e, e ∈ scored ∧ e ∉ L ∧ e.track = c) →
      SelGood seedName scored (L.foldl (seedSelStep seedName lim) s) := by
  intro L
  induction L with
  | nil => intro _ _ s hg _; exact hg
  | cons e L2 ih =>
    intro hnd hsub s hg hH
    rw [List.foldl_cons]
    have hsub2 : ∀ x ∈ L2, x ∈ scored := fun x hx => hsub x (List.mem_cons_of_mem _ hx)
    rcases seedSelStep_cases seedName lim s e with heq | hpush
    · rw [heq]
      refine ih hnd.of_cons hsub2 s hg ?_
      intro c hc hp
      rcases hH c hc hp with ⟨e2, he2s, he2L, he2t⟩
      exact ⟨e2, he2s, fun hx => he2L (List.mem_cons_of_mem _ hx), he2t⟩
    · have hest : e ∈ scored := hsub e (List.mem_cons_self _ _)
      obtain ⟨hs', hkey, htot⟩ := hpush
      have hfresh : ∀ c ∈ s.finalTracks, normKey c ≠ normKey e.track := by
        intro c hc hkeq
        rcases hg.from_scored c hc with ⟨st', hst', rfl⟩
        have hse : st' = e := scored_eq_of_key_eq hpw hst' hest hkeq
        subst hse
        rcases hH _ hc hkey with ⟨e2, he2s, he2L, he2t⟩
        have he2e : e2 = st' := scored_eq_of_key_eq hpw he2s hst' (by rw [he2t])
        subst he2e
        exact he2L (List.mem_cons_self _ _)
      have hg1 : SelGood seedName scored (seedSelStep seedName lim s e) :=
        SelGood.push_seed hg hest ⟨hs', hkey, htot⟩ hfresh
      refine ih hnd.of_cons hsub2 _ hg1 ?_
      intro c hc hp
      rw [hs'] at hc
      dsimp only at hc
      rcases List.mem_append.mp hc with hc | hc
      · rcases hH c hc hp with ⟨e2, he2s, he2L, he2t⟩
        exact ⟨e2, he2s, fun hx => he2L (List.mem_cons_of_mem _ hx), he2t⟩
      · rw [List.mem_singleton] at hc
        subst hc
        exact ⟨e, hest, (List.nodup_cons.mp hnd).1, rfl⟩

theorem selGood_init (seedName : String) (scored : List Scored) :
    SelGood seedName scored ⟨[], 0, []⟩ := by
  refine ⟨?_, ?_, ?_, ?_, ?_, ?_⟩ <;>
    simp [countPrimary, countOf, maxSameArtistTracks, List.find?]

theorem selPass1_props (seedName : String) (scored : List Scored) (lim : ℕ)
    (hpw : scored.Pairwise KeyNe) (L : List Scored) (hsub : ∀ e ∈ L, e ∈ scored)
    (s : SelState) (hg : SelGood seedName scored s) :
    SelGood seedName scored (selPass1 seedName lim L s) ∧
    (selPass1 seedName lim L s).sameArtistTotal = s.sameArtistTotal ∧
    countPrimary (selPass1 seedName lim L s).finalTracks seedName
      = countPrimary s.finalTracks seedName := by
  unfold selPass1
  exact selGood_foldl_nonseed hpw (lastFmSelStep_cases seedName lim) L hsub s hg

theorem selPass2_props (seedName : String) (scored : List Scored) (lim : ℕ)
    (hpw : scored.Pairwise KeyNe) (L : List Scored) (hsub : ∀ e ∈ L, e ∈ scored)
    (s : SelState) (hg : SelGood seedName scored s) :
    SelGood seedName scored (selPass2 seedName lim L s) ∧
    (selPass2 seedName lim L s).sameArtistTotal = s.sameArtistTotal ∧
    countPrimary (selPass2 seedName lim L s).finalTracks seedName
      = countPrimary s.finalTracks seedName := by
  unfold selPass2
  split
  · exact selGood_foldl_nonseed hpw (relatedSelStep_cases seedName lim) L hsub s hg
  · exact ⟨hg, rfl, rfl⟩

theorem selPass3_props (seedName : String) (scored : List Scored) (lim : ℕ)
    (hpw : scored.Pairwise KeyNe) (L : List Scored) (hsub : ∀ e ∈ L, e ∈ scored)
    (s : SelState) (hg : SelGood seedName scored s) :
    SelGood seedName scored (selPass3 seedName lim L s) ∧
    (selPass3 seedName lim L s).sameArtistTotal = s.sameArtistTotal ∧
    countPrimary (selPass3 seedName lim L s).finalTracks seedName
      = countPrimary s.finalTracks seedName := by
  unfold selPass3
  split
  · split
    · exact selGood_foldl_nonseed hpw (genreSelStep_cases seedName lim) L hsub s hg
    · exact ⟨hg, rfl, rfl⟩
  · exact ⟨hg, rfl, rfl⟩

theorem selPassSeed_props (seedName : String) (scored : List Scored) (lim : ℕ)
    (hpw : scored.Pairwise KeyNe) (L : List Scored) (hnd : L.Nodup)
    (hsub : ∀ e ∈ L, e ∈ scored)
    (s : SelState) (hg : SelGood seedName scored s) (h0 : s.sameArtistTotal = 0) :
    SelGood seedName scored (selPassSeed seedName lim L s) := by
  unfold selPassSeed
  split
  · refine selGood_foldl_seed hpw (L.take maxSameArtistTracks)
      ((List.take_sublist _ _).nodup hnd)
      (fun e he => hsub e (List.mem_of_mem_take he)) s hg ?_
    intro c hc hp
    exfalso
    have hz : countPrimary s.finalTracks seedName = 0 := by
      have := hg.seed_le_total
      omega
    exact (countPrimary_zero_iff _ _).mp hz c hc hp
  · exact hg

theorem selPass4_props (seedName : String) (scored : List Scored) (lim : ℕ)
    (hpw : scored.Pairwise KeyNe) (L : List Scored) (hsub : ∀ e ∈ L, e ∈ scored)
    (s : SelState) (hg : SelGood seedName scored s) :
    SelGood seedName scored (selPass4 seedName lim L s) := by
  unfold selPass4
  split
  · exact (selGood_foldl_nonseed hpw (otherSelStep_cases seedName lim) L hsub s hg).1
  · exact hg

theorem selBoost_props (seedName : String) (scored : List Scored) (lim : ℕ)
    (relatedArtists : List String) (hpw : scored.Pairwise KeyNe)
    (Lr Lg : List Scored) (hsubr : ∀ e ∈ Lr, e ∈ scored)
    (hsubg : ∀ e ∈ Lg, e ∈ scored)
    (s : SelState) (hg : SelGood seedName scored s) :
    SelGood seedName scored (selBoost seedName lim relatedArtists Lr Lg s) := by
  simp only [selBoost]
  split
  · split
    · split
      · exact (selGood_foldl_nonseed hpw (boostGenreSelStep_cases seedName lim) Lg hsubg _
          (selGood_foldl_nonseed hpw (boostRelatedSelStep_cases seedName lim)
            Lr hsubr s hg).1).1
      · exact (selGood_foldl_nonseed hpw (boostGenreSelStep_cases seedName lim)
          Lg hsubg s hg).1
    · split
      · exact (selGood_foldl_nonseed hpw (boostRelatedSelStep_cases seedName lim)
          Lr hsubr s hg).1
      · exact hg
  · exact hg

theorem selectTracks_props (scored : List Scored) (cands : List Candidate)
    (seedName : String) (relatedArtists : List String) (lim : ℕ)
    (hpw : scored.Pairwise KeyNe) :
    (∀ name, name ≠ seedName →
      countPrimary (selectTracks scored cands seedName relatedArtists lim) name
        ≤ maxTracksPerArtist) ∧
    countPrimary (selectTracks scored cands seedName relatedArtists lim) seedName
      ≤ maxSameArtistTracks ∧
    (selectTracks scored cands seedName relatedArtists lim).Pairwise
      (fun a b => normKey a ≠ normKey b) ∧
    (∀ c ∈ selectTracks scored cands seedName relatedArtists lim,
      ∃ st, st ∈ scored ∧ st.track = c) := by
  have hnods : scored.Nodup := hpw.imp (fun h heq => h (by rw [heq]))
  simp only [selectTracks]
  have h0 := selGood_init seedName scored
  have h1 := selPass1_props seedName scored lim hpw
    (scored.filter (fun st => sourceOf cands st.track.id = some .lastfm))
    (fun e he => List.mem_of_mem_filter he) _ h0
  have h2 := selPass2_props seedName scored lim hpw
    (scored.filter (fun st => st.isRelatedArtist ∧ ¬ st.isSameArtist))
    (fun e he => List.mem_of_mem_filter he) _ h1.1
  have h3 := selPass3_props seedName scored lim hpw
    (scored.filter (fun st => sourceOf cands st.track.id = some .genre_search))
    (fun e he => List.mem_of_mem_filter he) _ h2.1
  have ht3 : (selPass3 seedName lim
      (scored.filter (fun st => sourceOf cands st.track.id = some .genre_search))
      (selPass2 seedName lim
        (scored.filter (fun st => st.isRelatedArtist ∧ ¬ st.isSameArtist))
        (selPass1 seedName lim
          (scored.filter (fun st => sourceOf cands st.track.id = some .lastfm))
          ⟨[], 0, []⟩))).sameArtistTotal = 0 := by
    rw [h3.2.1, h2.2.1, h1.2.1]
  have h4 := selPassSeed_props seedName scored lim hpw
    (scored.filter (·.isSameArtist)) (hnods.filter _)
    (fun e he => List.mem_of_mem_filter he) _ h3.1 ht3
  have h5 := selPass4_props seedName scored lim hpw
    (scored.filter (fun st => ¬ st.isSameArtist ∧ ¬ st.isRelatedArtist ∧
      sourceOf cands st.track.id ≠ some .genre_search ∧
      sourceOf cands st.track.id ≠ some .lastfm))
    (fun e he => List.mem_of_mem_filter he) _ h4
  have h6 := selBoost_props seedName scored lim relatedArtists hpw
    (scored.filter (fun st => st.isRelatedArtist ∧ ¬ st.isSameArtist))
    (scored.filter (fun st => sourceOf cands st.track.id = some .genre_search))
    (fun e he => List.mem_of_mem_filter he)
    (fun e he => List.mem_of_mem_filter he) _ h5
  refine ⟨?_, ?_, ?_, ?_⟩
  · intro name hne
    exact le_trans
      (le_trans (countPrimary_le_of_sublist (List.take_sublist _ _) name)
        (h6.count_le name))
      (h6.nonseed_le_one name hne)
  · exact le_trans
      (le_trans (countPrimary_le_of_sublist (List.take_sublist _ _) seedName)
        h6.seed_le_total)
      h6.total_le_two
  · exact h6.keys_pairwise.sublist (List.take_sublist _ _)
  · intro c hc
    exact h6.from_scored c (List.mem_of_mem_take hc)

theorem KeyNe_symm {a b : Scored} (h : KeyNe a b) : KeyNe b a :=
  Ne.symm h

theorem scoredTracks_pairwise (env : SimEnv) :
    (scoredTracks env).Pairwise KeyNe := by
  unfold scoredTracks
  refine (List.Perm.pairwise_iff (R := KeyNe) (fun h => KeyNe_symm h)
    (List.mergeSort_perm _ _)).mpr ?_
  rw [List.pairwise_map]
  exact ((candidatePool_pairwise env).filter _).imp (fun h => h)

theorem scoredTracks_mem {env : SimEnv} {st : Scored} (h : st ∈ scoredTracks env) :
    st.track ∈ candidatePool env ∧ candidateFilter env st.track = true := by
  unfold scoredTracks at h
  rw [(List.mergeSort_perm _ _).mem_iff] at h
  rcases List.mem_map.mp h with ⟨c, hc, rfl⟩
  exact ⟨List.mem_of_mem_filter hc, List.of_mem_filter hc⟩

theorem candidateFilter_key_ne {env : SimEnv} {c : Candidate}
    (h : candidateFilter env c = true) :
    normalizeTrackNameForComparison c.name ≠ env.seedNorm := by
  unfold candidateFilter at h
  split at h
  · cases h
  · split at h
    · cases h
    · next hne => exact hne

/-- **C2.**  Diversity of the final output of `findSimilarTracks`: counting
by a track's primary artist (`artists[0]`, which is what the quota
bookkeeping of the source uses), no non-seed artist has more than
`maxTracksPerArtist = 1` track in the final list and the seed artist has at
most `maxSameArtistTracks = 2`.  The bound holds for *every* environment —
in particular whenever more than `limit` candidates with pairwise-distinct
primary artists are available, as the claim hypothesises. -/
theorem c2_diversity (env : SimEnv) :
    (∀ name, name ≠ env.seedArtistName →
      countPrimary (finalTracksOf env) name ≤ 1) ∧
    countPrimary (finalTracksOf env) env.seedArtistName ≤ 2 := by
  have h := selectTracks_props (scoredTracks env) (candidatePool env)
    env.seedArtistName env.relatedArtists env.limit (scoredTracks_pairwise env)
  exact ⟨fun name hne => h.1 name hne, h.2.1⟩

/-- **C3.**  Normalized-name deduplication across the whole pipeline:
(1) the aggregated candidate pool of `findSimilarTracks` holds at most one
track per normalized key (pairwise-distinct keys), (2) so does the final
output, and (3)-(6) every iteration of each of the four sources
(seed-artist, related-artist, genre-search, Last.fm) satisfies `AggStepOk`:
it leaves the pool unchanged or appends one candidate whose key is not yet
seen — since every pooled candidate's key is seen, the first pooled
occurrence of a key is the one that stays and every later colliding
candidate is dropped; no source bypasses the check. -/
theorem c3_dedup (env : SimEnv) :
    (candidatePool env).Pairwise (fun a b => normKey a ≠ normKey b) ∧
    (finalTracksOf env).Pairwise (fun a b => normKey a ≠ normKey b) ∧
    (∀ (s : AggState) (t : Track),
      AggStepOk s (seedArtistStep env.seedTrack.id env.seedNorm s t)) ∧
    (∀ (s : AggState) (t : Track), AggStepOk s (relatedStep env.seedNorm s t)) ∧
    (∀ (s : AggState) (t : Track),
      AggStepOk s (genreStep env.seedArtistName env.seedNorm s t)) ∧
    (∀ (s : AggState) (er : LfmEntry × Option Track),
      AggStepOk s (lastFmStep env.seedNorm s er)) := by
  refine ⟨candidatePool_pairwise env, ?_,
    aggStepOk_seedArtistStep env.seedTrack.id env.seedNorm,
    aggStepOk_relatedStep env.seedNorm,
    aggStepOk_genreStep env.seedArtistName env.seedNorm,
    aggStepOk_lastFmStep env.seedNorm⟩
  exact (selectTracks_props (scoredTracks env) (candidatePool env)
    env.seedArtistName env.relatedArtists env.limit (scoredTracks_pairwise env)).2.2.1

/-- **C4.**  Seed exclusion: no track of the final recommendation list has
the seed track's normalized-name key (so no remix/variant of the seed is
recommended), and in particular the resolved seed track itself — whose name
trivially normalizes to its own key — never appears. -/
theorem c4_seed_exclusion (env : SimEnv) :
    (∀ c ∈ finalTracksOf env,
      normKey c ≠ normalizeTrackNameForComparison env.seedTrack.name) ∧
    ∀ c ∈ finalTracksOf env, c.name ≠ env.seedTrack.name := by
  have h := (selectTracks_props (scoredTracks env) (candidatePool env)
    env.seedArtistName env.relatedArtists env.limit (scoredTracks_pairwise env)).2.2.2
  have hkey : ∀ c ∈ finalTracksOf env, normKey c ≠ env.seedNorm := by
    intro c hc
    rcases h c hc with ⟨st, hst, rfl⟩
    exact candidateFilter_key_ne (scoredTracks_mem hst).2
  refine ⟨hkey, ?_⟩
  intro c hc hname
  exact hkey c hc (by rw [normKey, hname]; rfl)

/-- **C5, counterexample.**  The claim says every Last.fm result with match
score below 0.1 is discarded and no candidate derived from it enters the
candidate pool.  In the code the skip fires only when `match < 0.15`
*and* more than 20 candidates are already gathered: in `c5Env` the sole
Last.fm result has match 0.05 < 0.1, the pool is empty at that point, and
the derived candidate `t1` does enter the candidate pool. -/
theorem c5_counterexample :
    mkRat 1 20 < mkRat 1 10 ∧
    ((candidatePool c5Env).map (fun c => c.id)) = ["t1"] := by
  refine ⟨by decide, by decide⟩

/-- **C5, amended.**  A Last.fm result is skipped by the aggregator exactly
under the source's guard: when its match score is below 0.15 *and* the
candidate pool already holds more than 20 candidates; in that case the
iteration leaves the aggregation state untouched, so no candidate derived
from the result enters the pool.  (When 20 or fewer candidates are
gathered, even a result with match below 0.1 is processed, as the
counterexample shows.) -/
theorem c5_amended (seedNorm : String) (s : AggState) (e : LfmEntry)
    (r : Option Track) (hm : e.matchScore < mkRat 15 100)
    (hlen : 20 < s.cands.length) :
    lastFmStep seedNorm s (e, r) = s := by
  unfold lastFmStep
  rw [if_pos ⟨hm, hlen⟩]

/-- Witness for `c5_amended` at a concrete state holding 21 candidates and a
Last.fm result of match 0.05. -/
theorem c5_amended_witness :
    mkRat 1 20 < mkRat 15 100 ∧
    20 < (List.replicate 21 (mkCandidate c5Track "x" .lastfm)).length ∧
    lastFmStep "seed" ⟨[], List.replicate 21 (mkCandidate c5Track "x" .lastfm)⟩
        (⟨"n", "a", mkRat 1 20⟩, some c5Track)
      = ⟨[], List.replicate 21 (mkCandidate c5Track "x" .lastfm)⟩ :=
  ⟨by decide, by decide,
    c5_amended "seed" ⟨[], List.replicate 21 (mkCandidate c5Track "x" .lastfm)⟩
      ⟨"n", "a", mkRat 1 20⟩ (some c5Track) (by decide) (by decide)⟩

/-! ### C7: the URI accumulation bound -/

theorem moodSearchLoop_len (mood : String) (fam : Familiarity)
    (excludeIds : List String) :
    ∀ (l : List MoodTrack) (uris added : List String),
      (moodSearchLoop mood fam excludeIds l uris added).1.length
        ≤ max (uris.length + 1) 15 := by
  intro l
  induction l with
  | nil =>
    intro uris added
    simp only [moodSearchLoop]
    omega
  | cons t rest ih =>
    intro uris added
    simp only [moodSearchLoop]
    split
    · exact ih uris added
    · split
      · split
        · simp only [List.length_append, List.length_singleton]
          omega
        · next hlt =>
          have h2 := ih (uris ++ [t.uri]) (t.id :: added)
          simp only [List.length_append, List.length_singleton] at h2 hlt
          omega
      · exact ih uris added

theorem moodSearchPhase_foldl_len (mood : String) (fam : Familiarity)
    (excludeIds : List String) :
    ∀ (pages : List (List MoodTrack)) (st : List String × List String),
      (pages.foldl
        (fun st page => moodSearchLoop mood fam excludeIds page st.1 st.2) st).1.length
        ≤ max st.1.length 15 + pages.length := by
  intro pages
  induction pages with
  | nil =>
    intro st
    simp only [List.foldl_nil, List.length_nil]
    omega
  | cons p rest ih =>
    intro st
    rw [List.foldl_cons]
    refine le_trans (ih _) ?_
    have h1 := moodSearchLoop_len mood fam excludeIds p st.1 st.2
    simp only [List.length_cons]
    omega

theorem familiarFill_len (topTracks : List (String × String)) :
    ∀ (st : List String × List String),
      (familiarFill topTracks st).1.length ≤ max st.1.length 15 := by
  unfold familiarFill
  induction topTracks with
  | nil =>
    intro st
    simp only [List.foldl_nil]
    omega
  | cons t rest ih =>
    intro st
    rw [List.foldl_cons]
    refine le_trans (ih _) ?_
    split
    · next h =>
      simp only [List.length_append, List.length_singleton]
      omega
    · omega

theorem searchQueries_length_le (mood : String) (a : Option String) :
    (searchQueries mood a).length ≤ 3 := by
  unfold searchQueries
  refine le_trans (List.length_filter_le _ _) ?_
  refine le_trans (List.reduceOption_length_le _) ?_
  simp only [List.length_append, List.length_map, List.length_singleton]
  have := List.length_take_le 2 (moodSearchTerms mood)
  omega

/-- **C7.**  In every execution of `generatePlaylistByMood`, the total
number of accumulated track URIs at the point the playlist is populated is
at most 20.  (The search phase caps at 15 with a one-track overshoot per
additional query — at most 3 queries are built — and the `familiar` fill
only pushes below 15, so the real ceiling is even lower.) -/
theorem c7_mood_uris_le_20 (env : MoodEnv) : (moodTrackUris env).length ≤ 20 := by
  have hq := searchQueries_length_le env.mood env.primaryArtist
  have hp : (env.searchResults.take
      (searchQueries env.mood env.primaryArtist).length).length ≤ 3 :=
    le_trans (List.length_take_le _ _) hq
  have hphase := moodSearchPhase_foldl_len env.mood env.familiarity
    (moodExcludeIds env)
    (env.searchResults.take (searchQueries env.mood env.primaryArtist).length)
    ([], [])
  simp only [moodTrackUris, moodSearchPhase]
  split
  · refine le_trans (familiarFill_len env.topTracks _) ?_
    simp only [List.length_nil] at hphase
    omega
  · simp only [List.length_nil] at hphase
    omega

/-! ### C8: zero candidates still creates the playlist -/

theorem data_head_append (s t : String) (c : Char) (h : s.data.head? = some c) :
    (s ++ t).data.head? = some c := by
  have hd : (s ++ t).data = s.data ++ t.data := rfl
  rw [hd]
  cases hsd : s.data with
  | nil => rw [hsd] at h; cases h
  | cons a l =>
    rw [hsd] at h
    simpa using h

/-- **C8.**  When zero candidate URIs accumulate, `generatePlaylistByMood`
still runs playlist creation, skips the add-tracks call entirely (so
`addResult` cannot fail the operation), and replies with the success
message that reports `Tracks Added: 0` — a reply distinct from the
creation-failure and add-failure messages. -/
theorem c8_zero_tracks_success (env : MoodExtEnv)
    (htok : ∃ tk, env.tokenResult = .ok tk)
    (hprof : ∃ uid, env.profileResult = .ok (some uid))
    (hlib : env.libraryResult = .ok ())
    (hcreate : ∃ pl, env.createResult = .ok (some pl))
    (hzero : moodTrackUris env.core = []) :
    ∃ pl, env.createResult = .ok (some pl) ∧
      generatePlaylistByMoodExecute env = moodSuccessMessage env.core pl.2 0 ∧
      (∀ status errText : String,
        generatePlaylistByMoodExecute env ≠
          "Failed to create playlist. Error: " ++ status ++ " - " ++ errText) ∧
      (∀ pid : String,
        generatePlaylistByMoodExecute env ≠
          "Playlist created but failed to add tracks. Playlist ID: " ++ pid) := by
  obtain ⟨tk, htok⟩ := htok
  obtain ⟨uid, hprof⟩ := hprof
  obtain ⟨pl, hcreate⟩ := hcreate
  refine ⟨pl, hcreate, ?_⟩
  have hbody : generatePlaylistByMoodBody env = .ok (moodSuccessMessage env.core pl.2 0) := by
    unfold generatePlaylistByMoodBody
    rw [htok, hprof, hlib, hcreate]
    simp only [hzero]
    rfl
  have hexec : generatePlaylistByMoodExecute env = moodSuccessMessage env.core pl.2 0 := by
    unfold generatePlaylistByMoodExecute
    rw [hbody]
  refine ⟨hexec, ?_, ?_⟩
  · intro status errText heq
    rw [hexec] at heq
    have hh : (moodSuccessMessage env.core pl.2 0).data.head?
        = ("Failed to create playlist. Error: " ++ status ++ " - " ++
          errText).data.head? :=
      congrArg (fun s : String => s.data.head?) heq
    have h1 : (moodSuccessMessage env.core pl.2 0).data.head? = some '✅' := by
      unfold moodSuccessMessage
      repeat apply data_head_append
      rfl
    have h2 : ("Failed to create playlist. Error: " ++ status ++ " - " ++
        errText).data.head? = some 'F' := by
      repeat apply data_head_append
      rfl
    rw [h1, h2] at hh
    simp at hh
  · intro pid heq
    rw [hexec] at heq
    have hh : (moodSuccessMessage env.core pl.2 0).data.head?
        = ("Playlist created but failed to add tracks. Playlist ID: " ++
          pid).data.head? :=
      congrArg (fun s : String => s.data.head?) heq
    have h1 : (moodSuccessMessage env.core pl.2 0).data.head? = some '✅' := by
      unfold moodSuccessMessage
      repeat apply data_head_append
      rfl
    have h2 : ("Playlist created but failed to add tracks. Playlist ID: " ++
        pid).data.head? = some 'P' := by
      repeat apply data_head_append
      rfl
    rw [h1, h2] at hh
    simp at hh

/-- Witness for `c8_zero_tracks_success` at `c8Env` (zero candidates
accumulate there). -/
theorem c8_zero_tracks_success_witness :
    ∃ pl, c8Env.createResult = .ok (some pl) ∧
      generatePlaylistByMoodExecute c8Env = moodSuccessMessage c8Env.core pl.2 0 ∧
      (∀ status errText : String,
        generatePlaylistByMoodExecute c8Env ≠
          "Failed to create playlist. Error: " ++ status ++ " - " ++ errText) ∧
      (∀ pid : String,
        generatePlaylistByMoodExecute c8Env ≠
          "Playlist created but failed to add tracks. Playlist ID: " ++ pid) :=
  c8_zero_tracks_success c8Env ⟨"tk", rfl⟩ ⟨"u1", rfl⟩ rfl
    ⟨("pl1", "https://open.spotify.example/pl1"), rfl⟩ (by decide)

/-! ### C9: the tool wrappers return text on every path -/

/-- **C9.**  Both public tool entry points are total, String-valued
functions of their environment: every execution — including any
environment in which an external call or member access throws (an
`Except.error` of the body) — ends in the tool's reply text, either the
body's own formatted result or the tool-level catch's error text; no
exception propagates to the caller. -/
theorem c9_tools_never_throw (envS : SimExtEnv) (envM : MoodExtEnv) :
    (∃ s : String, findSimilarTracksExecute envS = s ∧
      (findSimilarTracksBody envS = .ok s ∨
        ∃ m, findSimilarTracksBody envS = .error m ∧
          s = "Error finding similar tracks: " ++ m)) ∧
    (∃ s : String, generatePlaylistByMoodExecute envM = s ∧
      (generatePlaylistByMoodBody envM = .ok s ∨
        ∃ m, generatePlaylistByMoodBody envM = .error m ∧
          s = "Error generating playlist: " ++ m)) := by
  constructor
  · unfold findSimilarTracksExecute
    rcases hb : findSimilarTracksBody envS with m | s
    · exact ⟨_, rfl, Or.inr ⟨m, rfl, rfl⟩⟩
    · exact ⟨s, rfl, Or.inl rfl⟩
  · unfold generatePlaylistByMoodExecute
    rcases hb : generatePlaylistByMoodBody envM with m | s
    · exact ⟨_, rfl, Or.inr ⟨m, rfl, rfl⟩⟩
    · exact ⟨s, rfl, Or.inl rfl⟩

end Beatsmith
